import Mathlib

/-!
# CrazyAra: evaluation reporting (`evalinfo.cpp`)

A shallow embedding of `engine/src/evalinfo.cpp`.

Conventions of the embedding.

* A C++ `std::vector` is a `List`; `operator[]` outside the bounds is
  undefined behaviour in C++ and is a fault here: functions that index return
  `Option`, and `none` is the fault.
* `size_t` is a `Nat` reduced modulo `2 ^ 64`; `int` is an `Int` obtained from
  the low 32 bits in two's complement.
* `float` values are idealised as real numbers and the arithmetic on them is
  exact; the values the type `float` can hold are singled out by `isBinary32`.
* The search tree (`Node`, declared in `node.h`) is seen through the accessors
  `evalinfo.cpp` calls; each accessor is a field of the structure `Node`.
-/

namespace CrazyAra

/-! ## Machine arithmetic -/

/-- Width of `size_t`. -/
def SIZE_BITS : Nat := 64

/-- Width of `int`. -/
def INT_BITS : Nat := 32

/-- Reduction of a natural number to a `size_t`. -/
def toSizeT (n : Nat) : Nat := n % 2 ^ SIZE_BITS

/-- Unary minus on `size_t`: `-x` is `2 ^ 64 - x` modulo `2 ^ 64`. -/
def negSizeT (x : Nat) : Nat := (2 ^ SIZE_BITS - x % 2 ^ SIZE_BITS) % 2 ^ SIZE_BITS

/-- Conversion of a `size_t` to `int`: the low 32 bits, read in two's complement. -/
def sizeToInt (x : Nat) : Int :=
  if x % 2 ^ INT_BITS < 2 ^ (INT_BITS - 1) then ((x % 2 ^ INT_BITS : Nat) : Int)
  else ((x % 2 ^ INT_BITS : Nat) : Int) - 2 ^ INT_BITS

/-! ## Vectors -/

/-- The C++ `vector::resize(n)`: keeps the first `n` entries and pads with `d`. -/
def resize {α : Type} (l : List α) (n : Nat) (d : α) : List α :=
  l.take n ++ List.replicate (n - l.length) d

/-- The C++ `v[i] = x`: a fault outside the bounds. -/
def writeAt {α : Type} (l : List α) (i : Nat) (x : α) : Option (List α) :=
  if i < l.length then some (l.set i x) else none

/-! ## Centipawn conversion -/

/-- The values of the C++ type `float` (IEEE 754 binary32, finite): a significand `m` of
at most 24 bits times a power of two `2 ^ (k - 149)` with `-149 ≤ k - 149 ≤ 104`. -/
def isBinary32 (v : ℝ) : Prop :=
  ∃ m : ℤ, ∃ k : ℕ, |m| < 2 ^ 24 ∧ k ≤ 253 ∧ v = (m : ℝ) * 2 ^ k / 2 ^ 149

/-- The sign function `sgn` of `evalinfo.cpp`: `(v > 0) - (v < 0)`. -/
noncomputable def sgn (v : ℝ) : ℤ :=
  (if v > 0 then 1 else 0) - (if v < 0 then 1 else 0)

/-- The C++ conversion `int(x)` of a floating-point value: truncation toward zero. -/
noncomputable def truncToInt (x : ℝ) : ℤ :=
  if 0 ≤ x then ⌊x⌋ else ⌈x⌉

/-- The function `value_to_centipawn` of `evalinfo.cpp`. The branches, the sign and the
truncating cast are the code's; the logarithms, the division and the product are exact
here, where the code rounds each step to `float` and divides by `log(1.2f)`. The two
agree up to that rounding error, which can move the result by one where the exact
quantity is next to an integer. -/
noncomputable def value_to_centipawn (value : ℝ) : ℤ :=
  if |value| ≥ 1 then
    sgn value * 9999
  else
    truncToInt (-((sgn value : ℝ) * Real.log (1 - |value|) / Real.log 1.2) * 100)

/-! ## The search tree, as `evalinfo.cpp` sees it -/

/-- A move; `evalinfo.cpp` only copies moves around. -/
abbrev Move := Nat

/-- The node classification `NodeType` of `node.h`. -/
inductive NodeType
  | SOLVED_WIN
  | SOLVED_DRAW
  | SOLVED_LOSS
  | UNSOLVED
  deriving DecidableEq

/-- A child of the root (`const Node* nextNode`), through the three accessors
`set_eval_for_single_pv` calls on it. -/
structure ChildNode where
  /-- `is_playout_node()` -/
  is_playout_node : Bool
  /-- `get_node_type()` -/
  get_node_type : NodeType
  /-- the moves `get_principal_variation(pv)` appends to `pv` -/
  continuation : List Move

/-- The call `nextNode->get_principal_variation(pv)`: the child appends its own stored
line to the caller's move sequence. -/
def ChildNode.get_principal_variation (n : ChildNode) (pv : List Move) : List Move :=
  pv ++ n.continuation

/-- The root node (`Node* rootNode`), through the accessors `evalinfo.cpp` calls. A null
child pointer is `none`. -/
structure Node where
  /-- `get_child_number_visits()` -/
  get_child_number_visits : List ℝ
  /-- `get_number_child_nodes()` -/
  get_number_child_nodes : Nat
  /-- the contents `get_mcts_policy(policy, bestMoveIdx)` leaves in `policy` -/
  get_mcts_policy : List ℝ
  /-- `get_legal_moves()` -/
  get_legal_moves : List Move
  /-- `get_best_move_index(rootNode, false)` -/
  get_best_move_index : Nat
  /-- `get_move(childIdx)` -/
  get_move : Nat → Move
  /-- `get_child_node(childIdx)` -/
  get_child_node : Nat → Option ChildNode
  /-- `get_q_value(childIdx)` -/
  get_q_value : Nat → ℝ
  /-- `get_node_count(rootNode)` -/
  get_node_count : Nat

/-- The struct `EvalInfo` of `evalinfo.h`; the two time points are in milliseconds,
`bestMoveQ` is a vector of `float`, `centipawns` and `movesToMate` are vectors of `int`. -/
structure EvalInfo where
  start : Nat
  stop : Nat
  bestMoveQ : List ℝ
  legalMoves : List Move
  policyProbSmall : List ℝ
  childNumberVisits : List ℝ
  centipawns : List ℤ
  depth : Nat
  selDepth : Nat
  movesToMate : List ℤ
  nodes : Nat
  nodesPreSearch : Nat
  isChess960 : Bool
  pv : List (List Move)
  multiPV : Nat
  tbHits : Nat

/-! ## Helpers of `util/blazeutil.h` -/

/-- Modelled from the spec: `sort_permutation` of `util/blazeutil.h`, whose source is
missing. It returns the permutation that sorts the slots of `vec` with respect to
`compare`; slots that `compare` does not separate keep their original order. -/
def sort_permutation (vec : List ℝ) (compare : ℝ → ℝ → Prop) [DecidableRel compare] :
    List Nat :=
  (List.range vec.length).insertionSort
    (fun i j => ¬ compare (vec.getD j 0) (vec.getD i 0))

/-- The entries of `vec` at the slots `p`, in the order of `p`; a slot outside the vector
is a fault. -/
def gather {α : Type} (vec : List α) : List Nat → Option (List α)
  | [] => some []
  | i :: p =>
    match vec[i]?, gather vec p with
    | some x, some xs => some (x :: xs)
    | _, _ => none

/-- Modelled from the spec: `apply_permutation_in_place` of `util/blazeutil.h`, whose
source is missing. Slot `r` of the result holds the old entry of slot `p[r]`; the
entries behind the permutation stay where they are; a slot outside the vector is a
fault. -/
def apply_permutation_in_place {α : Type} (vec : List α) (p : List Nat) : Option (List α) :=
  (gather vec p).map (fun front => front ++ vec.drop p.length)

/-! ## `evalinfo.cpp`: resolving the lines -/

/-- The early exit of `set_eval_for_single_pv`: the three score vectors are cut to
`idx` entries and the function returns `false`. -/
def truncate_scores (evalInfo : EvalInfo) (idx : Nat) : EvalInfo :=
  { evalInfo with
    movesToMate := resize evalInfo.movesToMate idx 0
    bestMoveQ := resize evalInfo.bestMoveQ idx 0
    centipawns := resize evalInfo.centipawns idx 0 }

/-- The function `set_eval_for_single_pv` of `evalinfo.cpp`. The result is the updated
`evalInfo` with the returned flag, or `none` for an access outside a vector. -/
noncomputable def set_eval_for_single_pv (evalInfo : EvalInfo) (rootNode : Node) (idx : Nat)
    (indices : List Nat) : Option (EvalInfo × Bool) :=
  match (if idx = 0 then some rootNode.get_best_move_index else indices[idx]?) with
  | none => none
  | some childIdx =>
    let pv : List Move := [rootNode.get_move childIdx]
    match rootNode.get_child_node childIdx with
    | none => some (truncate_scores evalInfo idx, false)
    | some nextNode =>
      if !nextNode.is_playout_node then
        some (truncate_scores evalInfo idx, false)
      else
        let pv := nextNode.get_principal_variation pv
        let evalInfo := { evalInfo with pv := evalInfo.pv ++ [pv] }
        if nextNode.get_node_type = NodeType.SOLVED_LOSS then
          (writeAt evalInfo.movesToMate idx
              (sizeToInt (toSizeT (toSizeT pv.length / 2 + toSizeT evalInfo.pv.length % 2)))).map
            (fun mtm => ({ evalInfo with movesToMate := mtm }, true))
        else if nextNode.get_node_type = NodeType.SOLVED_WIN then
          (writeAt evalInfo.movesToMate idx
              (sizeToInt (toSizeT (negSizeT pv.length / 2 + toSizeT evalInfo.pv.length % 2)))).map
            (fun mtm => ({ evalInfo with movesToMate := mtm }, true))
        else
          (writeAt evalInfo.movesToMate idx (0 : ℤ)).bind fun mtm =>
          (writeAt evalInfo.bestMoveQ idx (rootNode.get_q_value childIdx)).bind fun q =>
          (q[idx]?).bind fun qIdx =>
          (writeAt evalInfo.centipawns idx (value_to_centipawn qIdx)).map fun cp =>
            ({ evalInfo with movesToMate := mtm, bestMoveQ := q, centipawns := cp }, true)

/-- The function `sort_eval_lists` of `evalinfo.cpp`. -/
noncomputable def sort_eval_lists (evalInfo : EvalInfo) (indices : List Nat) :
    Option (EvalInfo × List Nat) :=
  let p := sort_permutation evalInfo.policyProbSmall (fun a b => a > b)
  let indices := indices ++ List.range evalInfo.legalMoves.length
  (apply_permutation_in_place evalInfo.policyProbSmall p).bind fun policy =>
  (apply_permutation_in_place evalInfo.legalMoves p).bind fun legal =>
  (apply_permutation_in_place indices p).map fun sorted =>
    ({ evalInfo with policyProbSmall := policy, legalMoves := legal }, sorted)

/-- The loop `for (idx = 0; idx < maxIdx; ++idx)` of `update_eval_info`, with
`remaining = maxIdx - idx` iterations to go; it stops at the first `false`. -/
noncomputable def resolve_lines (rootNode : Node) (indices : List Nat) :
    Nat → Nat → EvalInfo → Option EvalInfo
  | 0, _, evalInfo => some evalInfo
  | remaining + 1, idx, evalInfo =>
    match set_eval_for_single_pv evalInfo rootNode idx indices with
    | none => none
    | some (evalInfo, false) => some evalInfo
    | some (evalInfo, true) => resolve_lines rootNode indices remaining (idx + 1) evalInfo

/-- The snapshot of `update_eval_info` (lines 153 to 158): visits, policy, legal moves. -/
def snapshot (evalInfo : EvalInfo) (rootNode : Node) : EvalInfo :=
  { evalInfo with
    childNumberVisits := rootNode.get_child_number_visits
    policyProbSmall := resize rootNode.get_mcts_policy rootNode.get_number_child_nodes 0
    legalMoves := rootNode.get_legal_moves }

/-- The bound `maxIdx = min(evalInfo.multiPV, evalInfo.legalMoves.size())`, where
`evalInfo.legalMoves` is the snapshot of the root's legal moves. -/
def maxLines (evalInfo : EvalInfo) (rootNode : Node) : Nat :=
  min evalInfo.multiPV rootNode.get_legal_moves.length

/-- The sorting step of `update_eval_info` (lines 160 to 165): the index vector `indices`
with the reordered lists. -/
noncomputable def sorted_lists (evalInfo : EvalInfo) (rootNode : Node) :
    Option (EvalInfo × List Nat) :=
  if maxLines evalInfo rootNode > 1 then sort_eval_lists (snapshot evalInfo rootNode) []
  else some (snapshot evalInfo rootNode, [])

/-- The function `update_eval_info` of `evalinfo.cpp` up to the end of its loop
(lines 153 to 176); `maxIdx` is fixed before the lists are sorted. -/
noncomputable def update_eval_info_lines (evalInfo : EvalInfo) (rootNode : Node) :
    Option EvalInfo :=
  let maxIdx := maxLines evalInfo rootNode
  (sorted_lists evalInfo rootNode).bind fun (evalInfo, indices) =>
    let evalInfo := { evalInfo with
      pv := []
      movesToMate := resize evalInfo.movesToMate maxIdx 0
      bestMoveQ := resize evalInfo.bestMoveQ maxIdx 0
      centipawns := resize evalInfo.centipawns maxIdx 0 }
    resolve_lines rootNode indices maxIdx 0 evalInfo

/-- The function `update_eval_info` of `evalinfo.cpp`: the loop, then the four summary
fields (lines 178 to 181); `evalInfo.pv[0]` is a fault when no line was resolved. -/
noncomputable def update_eval_info (evalInfo : EvalInfo) (rootNode : Node) (tbHits selDepth : Nat) :
    Option EvalInfo :=
  (update_eval_info_lines evalInfo rootNode).bind fun evalInfo =>
  (evalInfo.pv[0]?).map fun pv0 =>
    { evalInfo with
      depth := pv0.length
      selDepth := selDepth
      nodes := rootNode.get_node_count
      tbHits := tbHits }

/-! ## Vocabulary of the claims -/

/-- The child slot that rank `idx` selects: the best move for rank 0, the sorted index
vector for the ranks behind it. -/
def selected_child_index (rootNode : Node) (indices : List Nat) (idx : Nat) : Nat :=
  if idx = 0 then rootNode.get_best_move_index else indices.getD idx 0

/-- Whether the line of rank `idx` can be resolved: the selected child is present and is
a playout node. -/
def line_resolvable (rootNode : Node) (indices : List Nat) (idx : Nat) : Bool :=
  match rootNode.get_child_node (selected_child_index rootNode indices idx) with
  | none => false
  | some nextNode => nextNode.is_playout_node

/-! ## Concrete search trees -/

/-- A fresh `EvalInfo` that asks for `multiPV` lines. -/
def blankEval (multiPV : Nat) : EvalInfo :=
  { start := 0, stop := 0, bestMoveQ := [], legalMoves := [], policyProbSmall := [],
    childNumberVisits := [], centipawns := [], depth := 0, selDepth := 0, movesToMate := [],
    nodes := 0, nodesPreSearch := 0, isChess960 := false, pv := [], multiPV := multiPV,
    tbHits := 0 }

/-- A root without legal moves (a mated or stalemated position). -/
noncomputable def rootNoMoves : Node :=
  { get_child_number_visits := [], get_number_child_nodes := 0, get_mcts_policy := [],
    get_legal_moves := [], get_best_move_index := 0, get_move := fun _ => 0,
    get_child_node := fun _ => none, get_q_value := fun _ => 0, get_node_count := 1 }

/-- A root with one legal move whose child was never expanded. -/
noncomputable def rootUnexpanded : Node :=
  { get_child_number_visits := [0], get_number_child_nodes := 1, get_mcts_policy := [1],
    get_legal_moves := [10], get_best_move_index := 0, get_move := fun i => 10 + i,
    get_child_node := fun _ => none, get_q_value := fun _ => 0, get_node_count := 1 }

/-- A root with one legal move whose child exists but is not a playout node. -/
noncomputable def rootNoPlayout : Node :=
  { get_child_number_visits := [1], get_number_child_nodes := 1, get_mcts_policy := [1],
    get_legal_moves := [10], get_best_move_index := 0, get_move := fun i => 10 + i,
    get_child_node := fun _ => some ⟨false, NodeType.UNSOLVED, []⟩,
    get_q_value := fun _ => 0, get_node_count := 2 }

/-- A root with two legal moves; each child is a proven loss for the side to move with
a stored line of `tail` further moves. -/
noncomputable def rootTwoLosses (tail : List Move) : Node :=
  { get_child_number_visits := [3, 2], get_number_child_nodes := 2,
    get_mcts_policy := [3 / 5, 2 / 5], get_legal_moves := [10, 11], get_best_move_index := 0,
    get_move := fun i => 10 + i,
    get_child_node := fun _ => some ⟨true, NodeType.SOLVED_LOSS, tail⟩,
    get_q_value := fun _ => 1, get_node_count := 7 }

/-- A root with one legal move whose child is a proven win for the side to move with a
stored line of `tail` further moves. -/
noncomputable def rootOneWin (tail : List Move) : Node :=
  { get_child_number_visits := [4], get_number_child_nodes := 1, get_mcts_policy := [1],
    get_legal_moves := [10], get_best_move_index := 0, get_move := fun i => 10 + i,
    get_child_node := fun _ => some ⟨true, NodeType.SOLVED_WIN, tail⟩,
    get_q_value := fun _ => -1, get_node_count := 9 }

/-- A root with one legal move whose child is an unsolved playout node with value `q`. -/
noncomputable def rootOneUnsolved (q : ℝ) : Node :=
  { get_child_number_visits := [4], get_number_child_nodes := 1, get_mcts_policy := [1],
    get_legal_moves := [10], get_best_move_index := 0, get_move := fun i => 10 + i,
    get_child_node := fun _ => some ⟨true, NodeType.UNSOLVED, [20]⟩,
    get_q_value := fun _ => q, get_node_count := 5 }

/-! ## `evalinfo.cpp`: timing and throughput -/

/-- Subtraction on `size_t`. -/
def subSizeT (a b : Nat) : Nat := (a % 2 ^ SIZE_BITS + 2 ^ SIZE_BITS - b % 2 ^ SIZE_BITS) % 2 ^ SIZE_BITS

/-- Conversion of an `int` to `size_t`: the value modulo `2 ^ 64`. -/
def intToSizeT (z : Int) : Nat := (z % 2 ^ SIZE_BITS).toNat

/-- The function `EvalInfo::calculate_elapsed_time_ms` of `evalinfo.cpp`: the signed
millisecond count of `end - start`, returned as a `size_t`. -/
def EvalInfo.calculate_elapsed_time_ms (evalInfo : EvalInfo) : Nat :=
  intToSizeT ((evalInfo.stop : Int) - (evalInfo.start : Int))

/-- The function `EvalInfo::calculate_nps(size_t elapsedTimeMS)` of `evalinfo.cpp`. The
guard on `elapsedTimeMS` is the code's; the division and the addition are exact here,
where the code rounds each step to `float` and casts through a 32-bit `int`, so the value
is the code's only where every step is exact and below `2 ^ 31`. -/
noncomputable def EvalInfo.calculate_nps (evalInfo : EvalInfo) (elapsedTimeMS : Nat) : Nat :=
  let elapsedTimeMS := if elapsedTimeMS = 0 then 1 else elapsedTimeMS
  intToSizeT (truncToInt
    (((subSizeT evalInfo.nodes evalInfo.nodesPreSearch : Nat) : ℝ) /
      ((elapsedTimeMS : ℝ) / 1000) + 0.5))

/-! ## `nodedata.cpp` -/

/-- The struct `NodeData` of `nodedata.h`: the four per-child vectors and the scalar
members the constructor initialises. A null child pointer is `none`. -/
structure NodeData where
  childNumberVisits : List ℝ
  actionValues : List ℝ
  qValues : List ℝ
  childNodes : List (Option Node)
  terminalVisits : Nat
  checkmateIdx : Nat
  endInPly : Nat
  noVisitIdx : Nat
  numberUnsolvedChildNodes : Nat
  nodeType : NodeType

/-- Modelled from the spec: `append` of `util/blazeutil.h`, whose source is missing. It
grows the vector by one slot that holds `x` and keeps the slots before it. -/
def append {α : Type} (vec : List α) (x : α) : List α := vec ++ [x]

/-- The C++ `reserve(n)` called with an `int`: the size is converted to `size_t`, so a
negative `n` asks for about `2 ^ 64` entries and the call throws (`none`); otherwise only
the capacity changes, which is not part of this model, and every entry is kept. -/
def reserve {α : Type} (vec : List α) (n : Int) : Option (List α) :=
  if n < 0 then none else some vec

/-- Conversion of an unsigned member to `int`, as in `int(numberUnsolvedChildNodes)`. -/
def toInt (x : Nat) : Int := sizeToInt x

/-- The function `NodeData::add_empty_node` of `nodedata.cpp`; `Q_INIT` is a constant of
the engine whose definition is not in these files. -/
def NodeData.add_empty_node (Q_INIT : ℝ) (d : NodeData) : NodeData :=
  { d with
    childNumberVisits := append d.childNumberVisits 0
    actionValues := append d.actionValues 0
    qValues := append d.qValues Q_INIT
    childNodes := d.childNodes ++ [none] }

/-- The function `NodeData::reserve_initial_space` of `nodedata.cpp`; `PRESERVED_ITEMS`
is a constant of the engine whose definition is not in these files. A `reserve` that
throws ends the function (`none`). -/
def NodeData.reserve_initial_space (Q_INIT : ℝ) (PRESERVED_ITEMS : Int) (d : NodeData) :
    Option NodeData :=
  let initSize : Int := min PRESERVED_ITEMS (toInt d.numberUnsolvedChildNodes)
  (reserve d.childNumberVisits initSize).bind fun childNumberVisits =>
  (reserve d.actionValues initSize).bind fun actionValues =>
  (reserve d.qValues initSize).bind fun qValues =>
  (reserve d.childNodes initSize).map fun childNodes =>
    NodeData.add_empty_node Q_INIT
      { d with
        childNumberVisits := childNumberVisits
        actionValues := actionValues
        qValues := qValues
        childNodes := childNodes }

/-- The constructor `NodeData::NodeData(size_t numberChildNodes)` of `nodedata.cpp`: the
member initialisers on default-constructed (empty) vectors, then the body; `none` when
the body throws. `NO_CHECKMATE` is a constant of the engine and `COUNT_BITS` is the
width of the unsigned type of the member `numberUnsolvedChildNodes`; both are declared
outside these files. The member keeps the argument modulo `2 ^ COUNT_BITS`. -/
def NodeData.new (Q_INIT : ℝ) (PRESERVED_ITEMS : Int) (NO_CHECKMATE COUNT_BITS : Nat)
    (numberChildNodes : Nat) : Option NodeData :=
  let d : NodeData :=
    { childNumberVisits := [], actionValues := [], qValues := [], childNodes := [],
      terminalVisits := 0,
      checkmateIdx := NO_CHECKMATE,
      endInPly := 0,
      noVisitIdx := 1,
      numberUnsolvedChildNodes := numberChildNodes % 2 ^ COUNT_BITS,
      nodeType := NodeType.UNSOLVED }
  let d := { d with numberUnsolvedChildNodes := numberChildNodes % 2 ^ COUNT_BITS }
  d.reserve_initial_space Q_INIT PRESERVED_ITEMS

/-- The state the constructor builds when it does not throw. -/
def NodeData.fresh (Q_INIT : ℝ) (NO_CHECKMATE count : Nat) : NodeData :=
  { childNumberVisits := [0], actionValues := [0], qValues := [Q_INIT], childNodes := [none],
    terminalVisits := 0, checkmateIdx := NO_CHECKMATE, endInPly := 0, noVisitIdx := 1,
    numberUnsolvedChildNodes := count, nodeType := NodeType.UNSOLVED }

/-- Modelled from the spec: `blaze::subvector(vec, index, size)` of the Blaze library: the
view on the `size` entries from `index` on; a range outside the vector is a fault. -/
def subvector {α : Type} (vec : List α) (index size : Nat) : Option (List α) :=
  if index + size ≤ vec.length then some ((vec.drop index).take size) else none

/-- The function `NodeData::get_q_values` of `nodedata.cpp`. -/
def NodeData.get_q_values (d : NodeData) : Option (List ℝ) :=
  subvector d.qValues 0 d.noVisitIdx

/-- The number of children whose visit count is at least one. -/
noncomputable def NodeData.visitedChildren (d : NodeData) : Nat :=
  d.childNumberVisits.countP (fun v => decide (1 ≤ v))

/-- A `NodeData` whose four per-child vectors are empty. -/
def NodeData.blank : NodeData :=
  { childNumberVisits := [], actionValues := [], qValues := [], childNodes := [],
    terminalVisits := 0, checkmateIdx := 0, endInPly := 0, noVisitIdx := 0,
    numberUnsolvedChildNodes := 0, nodeType := NodeType.UNSOLVED }

/-- A root with three legal moves; the first and the last child have the same policy
mass, the middle one has more. Every child is an unsolved playout node. -/
noncomputable def rootThreeTied : Node :=
  { get_child_number_visits := [1, 2, 1], get_number_child_nodes := 3,
    get_mcts_policy := [1 / 4, 1 / 2, 1 / 4], get_legal_moves := [10, 11, 12],
    get_best_move_index := 1, get_move := fun i => 10 + i,
    get_child_node := fun _ => some ⟨true, NodeType.UNSOLVED, []⟩,
    get_q_value := fun _ => 0, get_node_count := 5 }

/-- The mate count `set_eval_for_single_pv` stores for a line of `lineLength` moves when
`pv` holds `lines` lines after the append; 0 for a child that is not proven. -/
def mate_score (nodeType : NodeType) (lineLength lines : Nat) : ℤ :=
  if nodeType = NodeType.SOLVED_LOSS then
    sizeToInt (toSizeT (toSizeT lineLength / 2 + toSizeT lines % 2))
  else if nodeType = NodeType.SOLVED_WIN then
    sizeToInt (toSizeT (negSizeT lineLength / 2 + toSizeT lines % 2))
  else 0

/-- The state `set_eval_for_single_pv` leaves behind at a rank whose selected child
`nextNode` is a playout node: the line is appended, the mate count is stored, and the two
other scores are stored only for a child that is not proven. -/
noncomputable def resolved_state (evalInfo : EvalInfo) (rootNode : Node) (idx : Nat)
    (indices : List Nat) (nextNode : ChildNode) : EvalInfo :=
  let childIdx := selected_child_index rootNode indices idx
  let line := rootNode.get_move childIdx :: nextNode.continuation
  { evalInfo with
    pv := evalInfo.pv ++ [line]
    movesToMate := evalInfo.movesToMate.set idx
      (mate_score nextNode.get_node_type line.length (evalInfo.pv.length + 1))
    bestMoveQ :=
      if nextNode.get_node_type = NodeType.SOLVED_LOSS ∨
          nextNode.get_node_type = NodeType.SOLVED_WIN then evalInfo.bestMoveQ
      else evalInfo.bestMoveQ.set idx (rootNode.get_q_value childIdx)
    centipawns :=
      if nextNode.get_node_type = NodeType.SOLVED_LOSS ∨
          nextNode.get_node_type = NodeType.SOLVED_WIN then evalInfo.centipawns
      else evalInfo.centipawns.set idx (value_to_centipawn (rootNode.get_q_value childIdx)) }

/-- The members of an `EvalInfo` that the line-resolution loop never writes. -/
def EvalInfo.frame (e : EvalInfo) :
    Nat × Nat × List Move × List ℝ × List ℝ × Nat × Nat × Nat × Nat × Bool × Nat × Nat :=
  (e.start, e.stop, e.legalMoves, e.policyProbSmall, e.childNumberVisits, e.depth, e.selDepth,
    e.nodes, e.nodesPreSearch, e.isChess960, e.multiPV, e.tbHits)

/-- The `EvalInfo` that `update_eval_info` returns, with `tbHits = 0` and `selDepth = 0`,
for a fresh `EvalInfo` with `multiPV = 1` at the root `rootOneWin` whose line has seven
moves. -/
noncomputable def evalOneWinSeven : EvalInfo :=
  { start := 0, stop := 0, bestMoveQ := [0], legalMoves := [10], policyProbSmall := [1],
    childNumberVisits := [4], centipawns := [0], depth := 7, selDepth := 0,
    movesToMate := [-3], nodes := 9, nodesPreSearch := 0, isChess960 := false,
    pv := [[10, 20, 21, 22, 23, 24, 25]], multiPV := 1, tbHits := 0 }

/-! ## `evalinfo.cpp`: text output -/

/-- The function `print_single_pv` of `evalinfo.cpp`. The stream is the text written so
far, `os`; `UCI_move` is `UCI::move` of `uci.h`; an access outside a vector is `none`. -/
noncomputable def print_single_pv (UCI_move : Move → Bool → String) (os : String)
    (evalInfo : EvalInfo) (idx elapsedTimeMS : Nat) : Option String :=
  let os := if idx ≠ 0 then os ++ "info score " else os
  let os := os ++ "multipv " ++ toString (toSizeT (idx + 1))
  (evalInfo.movesToMate[idx]?).bind fun mate =>
  (if mate = 0 then
      (evalInfo.centipawns[idx]?).map fun cp => os ++ " cp " ++ toString cp
    else
      some (os ++ " mate " ++ toString mate)).bind fun os =>
  let os := os ++ " depth " ++ toString evalInfo.depth
    ++ " seldepth " ++ toString evalInfo.selDepth
    ++ " nodes " ++ toString evalInfo.nodes
    ++ " time " ++ toString elapsedTimeMS
    ++ " nps " ++ toString (evalInfo.calculate_nps elapsedTimeMS)
    ++ " tbhits " ++ toString evalInfo.tbHits
    ++ " pv"
  (evalInfo.pv[idx]?).map fun line =>
    line.foldl (fun os move => os ++ " " ++ UCI_move move evalInfo.isChess960) os ++ "\n"

/-- The loop `for (idx = 0; idx < evalInfo.centipawns.size(); ++idx)` of `operator<<`,
with `remaining` iterations to go. -/
noncomputable def print_lines (UCI_move : Move → Bool → String) (evalInfo : EvalInfo)
    (elapsedTimeMS : Nat) : Nat → Nat → String → Option String
  | 0, _, os => some os
  | remaining + 1, idx, os =>
    (print_single_pv UCI_move os evalInfo idx elapsedTimeMS).bind
      (print_lines UCI_move evalInfo elapsedTimeMS remaining (idx + 1))

/-- The function `operator<<(std::ostream&, const EvalInfo&)` of `evalinfo.cpp`. -/
noncomputable def operator_out (UCI_move : Move → Bool → String) (os : String)
    (evalInfo : EvalInfo) : Option String :=
  let elapsedTimeMS := evalInfo.calculate_elapsed_time_ms
  print_lines UCI_move evalInfo elapsedTimeMS evalInfo.centipawns.length 0 os

/-! ### The line format, in the words of the specification -/

/-- The score field of line `idx`: `cp C` when `movesToMate[idx]` is 0, `mate M`
otherwise. -/
def score_field (evalInfo : EvalInfo) (idx : Nat) : String :=
  if evalInfo.movesToMate.getD idx 0 = 0 then
    "cp " ++ toString (evalInfo.centipawns.getD idx 0)
  else
    "mate " ++ toString (evalInfo.movesToMate.getD idx 0)

/-- The fields `depth D seldepth S nodes N time T nps P tbhits H`; they do not depend on
the line. -/
noncomputable def shared_fields (evalInfo : EvalInfo) : String :=
  "depth " ++ toString evalInfo.depth
    ++ " seldepth " ++ toString evalInfo.selDepth
    ++ " nodes " ++ toString evalInfo.nodes
    ++ " time " ++ toString evalInfo.calculate_elapsed_time_ms
    ++ " nps " ++ toString (evalInfo.calculate_nps evalInfo.calculate_elapsed_time_ms)
    ++ " tbhits " ++ toString evalInfo.tbHits

/-- The moves of a line, each behind a blank. -/
def moves_text (UCI_move : Move → Bool → String) (isChess960 : Bool) : List Move → String
  | [] => ""
  | move :: rest => " " ++ UCI_move move isChess960 ++ moves_text UCI_move isChess960 rest

/-- Line `idx` of the report, with its newline:
`multipv <idx+1> <cp C | mate M> depth D ... tbhits H pv <moves...>`, behind
`info score ` when `idx > 0`. -/
noncomputable def info_line (UCI_move : Move → Bool → String) (evalInfo : EvalInfo)
    (idx : Nat) : String :=
  (if 0 < idx then "info score " else "") ++ "multipv " ++ toString (idx + 1) ++ " "
    ++ score_field evalInfo idx ++ " " ++ shared_fields evalInfo ++ " pv"
    ++ moves_text UCI_move evalInfo.isChess960 (evalInfo.pv.getD idx []) ++ "\n"

/-- The concatenation of a list of texts. -/
def concat_lines : List String → String
  | [] => ""
  | line :: rest => line ++ concat_lines rest

/-- A move written as its number; stands for `UCI::move` in the examples. -/
def moveNumber (move : Move) (_isChess960 : Bool) : String := toString move

/-- An `EvalInfo` with two resolved lines: the first scored in centipawns, the second a
mate in two. -/
noncomputable def evalTwoLines : EvalInfo :=
  { start := 100, stop := 350, bestMoveQ := [1 / 4, 0], legalMoves := [10, 11],
    policyProbSmall := [3 / 5, 2 / 5], childNumberVisits := [3, 2], centipawns := [157, 0],
    depth := 2, selDepth := 5, movesToMate := [0, 2], nodes := 900, nodesPreSearch := 400,
    isChess960 := false, pv := [[10, 20], [11, 21, 22]], multiPV := 2, tbHits := 0 }

/-! ## Theorems -/

theorem length_resize {α : Type} (l : List α) (n : Nat) (d : α) : (resize l n d).length = n := by
  simp [resize]; omega

theorem writeAt_some {α : Type} (l : List α) (i : Nat) (x : α) (h : i < l.length) :
    writeAt l i x = some (l.set i x) := by
  simp [writeAt, h]

theorem child_index_eq (rootNode : Node) (indices : List Nat) (idx : Nat)
    (hidx : idx = 0 ∨ idx < indices.length) :
    (if idx = 0 then some rootNode.get_best_move_index else indices[idx]?) =
      some (selected_child_index rootNode indices idx) := by
  unfold selected_child_index
  by_cases h0 : idx = 0
  · simp [h0]
  · have hlt : idx < indices.length := by
      rcases hidx with h | h
      · exact absurd h h0
      · exact h
    simp [h0, List.getD, List.getElem?_eq_getElem hlt]

theorem set_eval_unresolvable (evalInfo : EvalInfo) (rootNode : Node) (idx : Nat)
    (indices : List Nat) (hidx : idx = 0 ∨ idx < indices.length)
    (hres : line_resolvable rootNode indices idx = false) :
    set_eval_for_single_pv evalInfo rootNode idx indices =
      some (truncate_scores evalInfo idx, false) := by
  unfold set_eval_for_single_pv
  rw [child_index_eq rootNode indices idx hidx]
  unfold line_resolvable at hres
  cases hc : rootNode.get_child_node (selected_child_index rootNode indices idx) with
  | none => simp [hc]
  | some nextNode =>
    rw [hc] at hres
    simp only at hres
    simp [hc, hres]

theorem set_eval_resolvable (evalInfo : EvalInfo) (rootNode : Node) (idx : Nat)
    (indices : List Nat) (hidx : idx = 0 ∨ idx < indices.length)
    (hm : idx < evalInfo.movesToMate.length) (hq : idx < evalInfo.bestMoveQ.length)
    (hc : idx < evalInfo.centipawns.length)
    (hres : line_resolvable rootNode indices idx = true) :
    ∃ next, set_eval_for_single_pv evalInfo rootNode idx indices = some (next, true) ∧
      next.pv.length = evalInfo.pv.length + 1 ∧
      next.movesToMate.length = evalInfo.movesToMate.length ∧
      next.bestMoveQ.length = evalInfo.bestMoveQ.length ∧
      next.centipawns.length = evalInfo.centipawns.length := by
  unfold set_eval_for_single_pv
  rw [child_index_eq rootNode indices idx hidx]
  unfold line_resolvable at hres
  cases hch : rootNode.get_child_node (selected_child_index rootNode indices idx) with
  | none => rw [hch] at hres; simp at hres
  | some nextNode =>
    rw [hch] at hres
    simp only at hres
    by_cases hl : nextNode.get_node_type = NodeType.SOLVED_LOSS
    · simp [hch, hres, hl, writeAt_some, hm]
    · by_cases hw : nextNode.get_node_type = NodeType.SOLVED_WIN
      · simp [hch, hres, hl, hw, writeAt_some, hm]
      · simp [hch, hres, hl, hw, writeAt_some, hm, hq, hc]

theorem gather_some {α : Type} (vec : List α) :
    ∀ p : List Nat, (∀ i ∈ p, i < vec.length) →
      ∃ l, gather vec p = some l ∧ l.length = p.length
  | [], _ => ⟨[], rfl, rfl⟩
  | i :: p, h => by
    obtain ⟨l, hl, hlen⟩ := gather_some vec p (fun j hj => h j (List.mem_cons_of_mem _ hj))
    have hi : i < vec.length := h i (List.mem_cons_self _ _)
    refine ⟨vec[i] :: l, ?_, by simp [hlen]⟩
    simp [gather, hl, List.getElem?_eq_getElem hi]

theorem apply_permutation_some {α : Type} (vec : List α) (p : List Nat)
    (hp : ∀ i ∈ p, i < vec.length) (hlen : p.length = vec.length) :
    ∃ l, apply_permutation_in_place vec p = some l ∧ l.length = vec.length := by
  obtain ⟨l, hl, hll⟩ := gather_some vec p hp
  refine ⟨l ++ vec.drop p.length, ?_, ?_⟩
  · simp [apply_permutation_in_place, hl]
  · simp [hll, hlen]

theorem sort_permutation_length (vec : List ℝ) (compare : ℝ → ℝ → Prop) [DecidableRel compare] :
    (sort_permutation vec compare).length = vec.length := by
  simp [sort_permutation, List.length_insertionSort]

theorem sort_permutation_lt (vec : List ℝ) (compare : ℝ → ℝ → Prop) [DecidableRel compare] :
    ∀ i ∈ sort_permutation vec compare, i < vec.length := by
  intro i hi
  simpa [sort_permutation, List.mem_insertionSort] using hi

theorem sorted_lists_some (evalInfo : EvalInfo) (rootNode : Node)
    (hwf : rootNode.get_number_child_nodes = rootNode.get_legal_moves.length) :
    ∃ sorted indices, sorted_lists evalInfo rootNode = some (sorted, indices) ∧
      sorted.multiPV = evalInfo.multiPV ∧
      sorted.legalMoves.length = rootNode.get_legal_moves.length ∧
      (1 < maxLines evalInfo rootNode → indices.length = rootNode.get_legal_moves.length) := by
  unfold sorted_lists
  by_cases hmax : maxLines evalInfo rootNode > 1
  · rw [if_pos hmax]
    unfold sort_eval_lists
    have hpl : (snapshot evalInfo rootNode).policyProbSmall.length =
        rootNode.get_legal_moves.length := by
      simp [snapshot, length_resize, hwf]
    have hll : (snapshot evalInfo rootNode).legalMoves.length =
        rootNode.get_legal_moves.length := by
      simp [snapshot]
    obtain ⟨policy, hpolicy, -⟩ := apply_permutation_some
      (snapshot evalInfo rootNode).policyProbSmall
      (sort_permutation (snapshot evalInfo rootNode).policyProbSmall (fun a b => a > b))
      (sort_permutation_lt _ _) (sort_permutation_length _ _)
    obtain ⟨legal, hlegal, hlegallen⟩ := apply_permutation_some
      (snapshot evalInfo rootNode).legalMoves
      (sort_permutation (snapshot evalInfo rootNode).policyProbSmall (fun a b => a > b))
      (fun i hi => by rw [hll, ← hpl]; exact sort_permutation_lt _ _ i hi)
      (by rw [sort_permutation_length, hpl, hll])
    obtain ⟨ind, hind, hindlen⟩ := apply_permutation_some
      ([] ++ List.range (snapshot evalInfo rootNode).legalMoves.length)
      (sort_permutation (snapshot evalInfo rootNode).policyProbSmall (fun a b => a > b))
      (fun i hi => by
        simp only [List.nil_append, List.length_range, hll, ← hpl]
        exact sort_permutation_lt _ _ i hi)
      (by simp [sort_permutation_length, hpl, hll])
    refine ⟨{ snapshot evalInfo rootNode with policyProbSmall := policy, legalMoves := legal },
      ind, ?_, ?_, ?_, ?_⟩
    · simp only [hpolicy, hlegal, hind, Option.some_bind, Option.map_some']
    · simp [snapshot]
    · simpa [hll] using hlegallen
    · intro _
      simpa [hll] using hindlen
  · rw [if_neg hmax]
    exact ⟨_, [], rfl, by simp [snapshot], by simp [snapshot], fun h => absurd h hmax⟩

theorem resolve_lines_lengths (rootNode : Node) (indices : List Nat) (M : Nat)
    (hind : ∀ i, 0 < i → i < M → i < indices.length) :
    ∀ (remaining idx : Nat) (evalInfo : EvalInfo), idx + remaining = M →
      evalInfo.pv.length = idx → evalInfo.movesToMate.length = M →
      evalInfo.bestMoveQ.length = M → evalInfo.centipawns.length = M →
      ∃ result k, resolve_lines rootNode indices remaining idx evalInfo = some result ∧
        idx ≤ k ∧ k ≤ M ∧ result.pv.length = k ∧ result.movesToMate.length = k ∧
        result.bestMoveQ.length = k ∧ result.centipawns.length = k ∧
        (∀ i, idx ≤ i → i < k → line_resolvable rootNode indices i = true) ∧
        (k < M → line_resolvable rootNode indices k = false) := by
  intro remaining
  induction remaining with
  | zero =>
    intro idx evalInfo hsum hpv hm hq hc
    have hidx : idx = M := by omega
    refine ⟨evalInfo, M, rfl, by omega, le_refl _, by omega, hm, hq, hc, ?_, ?_⟩
    · intro i h1 h2; omega
    · intro h; omega
  | succ r ih =>
    intro idx evalInfo hsum hpv hm hq hc
    have hlt : idx < M := by omega
    have hidx : idx = 0 ∨ idx < indices.length := by
      rcases Nat.eq_zero_or_pos idx with h | h
      · exact Or.inl h
      · exact Or.inr (hind idx h hlt)
    cases hres : line_resolvable rootNode indices idx with
    | false =>
      refine ⟨truncate_scores evalInfo idx, idx, ?_, le_refl _, by omega, ?_, ?_, ?_, ?_, ?_, ?_⟩
      · simp [resolve_lines, set_eval_unresolvable evalInfo rootNode idx indices hidx hres]
      · simpa [truncate_scores] using hpv
      · simp [truncate_scores, length_resize]
      · simp [truncate_scores, length_resize]
      · simp [truncate_scores, length_resize]
      · intro i h1 h2; omega
      · intro _; exact hres
    | true =>
      obtain ⟨next, hnext, hnpv, hnm, hnq, hnc⟩ :=
        set_eval_resolvable evalInfo rootNode idx indices hidx (by omega) (by omega) (by omega) hres
      obtain ⟨result, k, hr, hk1, hk2, h1, h2, h3, h4, h5, h6⟩ :=
        ih (idx + 1) next (by omega) (by omega) (by omega) (by omega) (by omega)
      refine ⟨result, k, ?_, by omega, hk2, h1, h2, h3, h4, ?_, h6⟩
      · simp [resolve_lines, hnext, hr]
      · intro i hi1 hi2
        rcases Nat.eq_or_lt_of_le hi1 with h | h
        · rw [← h]; exact hres
        · exact h5 i h hi2

/-- C2. For every root node whose child count is the length of its legal-move list and
every `multiPV`, the line-resolution loop of `update_eval_info` ends without a fault, and
afterwards `pv`, `movesToMate`, `bestMoveQ` and `centipawns` all have the same length `k`,
where `k` is the first rank whose selected child is absent or not a playout node (or
`maxLines` if there is none), and `k ≤ min(multiPV, number of legal moves)`. -/
theorem update_eval_info_lines_lengths (evalInfo : EvalInfo) (rootNode : Node)
    (hwf : rootNode.get_number_child_nodes = rootNode.get_legal_moves.length) :
    ∃ sorted indices result k,
      sorted_lists evalInfo rootNode = some (sorted, indices) ∧
      update_eval_info_lines evalInfo rootNode = some result ∧
      result.pv.length = k ∧ result.movesToMate.length = k ∧
      result.bestMoveQ.length = k ∧ result.centipawns.length = k ∧
      (∀ i, i < k → line_resolvable rootNode indices i = true) ∧
      (k < maxLines evalInfo rootNode → line_resolvable rootNode indices k = false) ∧
      k ≤ maxLines evalInfo rootNode ∧
      k ≤ min evalInfo.multiPV rootNode.get_legal_moves.length := by
  obtain ⟨sorted, indices, hs, hmulti, hlegal, hindlen⟩ := sorted_lists_some evalInfo rootNode hwf
  have hind : ∀ i, 0 < i → i < maxLines evalInfo rootNode → i < indices.length := by
    intro i h0 hi
    rw [hindlen (by omega)]
    have : maxLines evalInfo rootNode ≤ rootNode.get_legal_moves.length := by
      simp [maxLines]
    omega
  obtain ⟨result, k, hr, -, hk, h1, h2, h3, h4, h5, h6⟩ :=
    resolve_lines_lengths rootNode indices (maxLines evalInfo rootNode) hind
      (maxLines evalInfo rootNode) 0
      { sorted with
        pv := []
        movesToMate := resize sorted.movesToMate (maxLines evalInfo rootNode) 0
        bestMoveQ := resize sorted.bestMoveQ (maxLines evalInfo rootNode) 0
        centipawns := resize sorted.centipawns (maxLines evalInfo rootNode) 0 }
      (by omega) rfl (length_resize _ _ _) (length_resize _ _ _) (length_resize _ _ _)
  refine ⟨sorted, indices, result, k, hs, ?_, h1, h2, h3, h4,
    fun i hi => h5 i (Nat.zero_le _) hi, h6, hk, ?_⟩
  · simp only [update_eval_info_lines, hs, Option.some_bind]
    exact hr
  · simpa [maxLines] using hk

/-- C1, at the failing inputs. For a root without legal moves the loop of
`update_eval_info` leaves `pv` empty, and the read `evalInfo.pv[0]` behind the loop is
then outside the vector: the call faults. The same happens when the child of rank 0 was
never expanded or is not a playout node. -/
theorem update_eval_info_faults_without_lines :
    (update_eval_info_lines (blankEval 1) rootNoMoves).map (fun e => e.pv.length) = some 0 ∧
    update_eval_info (blankEval 1) rootNoMoves 0 0 = none ∧
    (update_eval_info_lines (blankEval 1) rootUnexpanded).map (fun e => e.pv.length) = some 0 ∧
    update_eval_info (blankEval 1) rootUnexpanded 0 0 = none ∧
    (update_eval_info_lines (blankEval 1) rootNoPlayout).map (fun e => e.pv.length) = some 0 ∧
    update_eval_info (blankEval 1) rootNoPlayout 0 0 = none := by
  refine ⟨?_, ?_, ?_, ?_, ?_, ?_⟩ <;>
    simp [update_eval_info, update_eval_info_lines, sorted_lists, maxLines, snapshot,
      resolve_lines, set_eval_for_single_pv, truncate_scores, rootNoMoves, rootUnexpanded,
      rootNoPlayout, blankEval, resize]

/-- C3, at the failing input. Two legal moves, both children proven losses whose lines
have three moves: rank 0 stores `2 = ceil(3 / 2)`, rank 1 stores `1`. -/
theorem solved_loss_rank_one_not_rounded_up :
    (update_eval_info (blankEval 2) (rootTwoLosses [20, 21]) 0 0).map
        (fun e => (e.pv.map List.length, e.movesToMate)) = some ([3, 3], [2, 1]) := by
  norm_num [update_eval_info, update_eval_info_lines, sorted_lists, maxLines, snapshot,
    resolve_lines, rootTwoLosses, blankEval, resize, sort_eval_lists, sort_permutation,
    apply_permutation_in_place, gather, set_eval_for_single_pv, writeAt, sizeToInt, toSizeT,
    SIZE_BITS, INT_BITS, ChildNode.get_principal_variation, List.range, List.range.loop,
    List.replicate]

/-- C4, at the failing input. One legal move whose child is a proven win with a line of
seven moves: the stored value is `-3`, not `-(7 / 2 + 1 % 2) = -4`. -/
theorem solved_win_not_negated_loss :
    (update_eval_info (blankEval 1) (rootOneWin [20, 21, 22, 23, 24, 25]) 0 0).map
        (fun e => (e.pv.map List.length, e.movesToMate)) = some ([7], [-3]) := by
  simp [update_eval_info, update_eval_info_lines, sorted_lists, maxLines, snapshot,
    resolve_lines, rootOneWin, blankEval, resize, set_eval_for_single_pv, writeAt, sizeToInt,
    toSizeT, negSizeT, SIZE_BITS, INT_BITS, ChildNode.get_principal_variation, List.replicate]

/-- C5, at the failing inputs. A proven loss whose line is the single mating move is
stored with `movesToMate = 0` at rank 1, and a proven win whose line has two moves is
stored with `movesToMate = 0` at rank 0. -/
theorem proven_line_stored_as_zero :
    (update_eval_info (blankEval 2) (rootTwoLosses []) 0 0).map
        (fun e => (e.pv.map List.length, e.movesToMate)) = some ([1, 1], [1, 0]) ∧
    (update_eval_info (blankEval 1) (rootOneWin [20]) 0 0).map
        (fun e => (e.pv.map List.length, e.movesToMate)) = some ([2], [0]) := by
  constructor
  · norm_num [update_eval_info, update_eval_info_lines, sorted_lists, maxLines, snapshot,
      resolve_lines, rootTwoLosses, blankEval, resize, sort_eval_lists, sort_permutation,
      apply_permutation_in_place, gather, set_eval_for_single_pv, writeAt, sizeToInt, toSizeT,
      SIZE_BITS, INT_BITS, ChildNode.get_principal_variation, List.range, List.range.loop,
      List.replicate]
  · simp [update_eval_info, update_eval_info_lines, sorted_lists, maxLines, snapshot,
      resolve_lines, rootOneWin, blankEval, resize, set_eval_for_single_pv, writeAt, sizeToInt,
      toSizeT, negSizeT, SIZE_BITS, INT_BITS, ChildNode.get_principal_variation,
      List.replicate]

/-- Witness of C2: `multiPV = 5` at a root with two legal moves. -/
theorem update_eval_info_lines_lengths_witness :
    (rootTwoLosses []).get_number_child_nodes = (rootTwoLosses []).get_legal_moves.length ∧
    ∃ sorted indices result k,
      sorted_lists (blankEval 5) (rootTwoLosses []) = some (sorted, indices) ∧
      update_eval_info_lines (blankEval 5) (rootTwoLosses []) = some result ∧
      result.pv.length = k ∧ result.movesToMate.length = k ∧
      result.bestMoveQ.length = k ∧ result.centipawns.length = k ∧
      (∀ i, i < k → line_resolvable (rootTwoLosses []) indices i = true) ∧
      (k < maxLines (blankEval 5) (rootTwoLosses []) →
        line_resolvable (rootTwoLosses []) indices k = false) ∧
      k ≤ maxLines (blankEval 5) (rootTwoLosses []) ∧
      k ≤ min (blankEval 5).multiPV (rootTwoLosses []).get_legal_moves.length :=
  ⟨rfl, update_eval_info_lines_lengths (blankEval 5) (rootTwoLosses []) rfl⟩

/-- C6. At a rank `idx` inside the three score vectors whose selected child is a playout
node that is neither `SOLVED_LOSS` nor `SOLVED_WIN`, `set_eval_for_single_pv` returns
`true` and sets `movesToMate[idx] = 0`, `bestMoveQ[idx]` to the root's Q value of the
selected child index, and `centipawns[idx] = value_to_centipawn(bestMoveQ[idx])`. -/
theorem set_eval_unsolved (evalInfo : EvalInfo) (rootNode : Node) (idx : Nat)
    (indices : List Nat) (nextNode : ChildNode)
    (hidx : idx = 0 ∨ idx < indices.length)
    (hm : idx < evalInfo.movesToMate.length) (hq : idx < evalInfo.bestMoveQ.length)
    (hc : idx < evalInfo.centipawns.length)
    (hchild : rootNode.get_child_node (selected_child_index rootNode indices idx) =
      some nextNode)
    (hplay : nextNode.is_playout_node = true)
    (hloss : nextNode.get_node_type ≠ NodeType.SOLVED_LOSS)
    (hwin : nextNode.get_node_type ≠ NodeType.SOLVED_WIN) :
    ∃ next q, set_eval_for_single_pv evalInfo rootNode idx indices = some (next, true) ∧
      next.movesToMate[idx]? = some 0 ∧
      next.bestMoveQ[idx]? = some q ∧
      q = rootNode.get_q_value (selected_child_index rootNode indices idx) ∧
      next.centipawns[idx]? = some (value_to_centipawn q) := by
  unfold set_eval_for_single_pv
  rw [child_index_eq rootNode indices idx hidx]
  simp [hchild, hplay, hloss, hwin, writeAt_some, hm, hq, hc]

/-- Witness of C6: rank 0 of a root whose only child is unsolved with value `1 / 4`. -/
theorem set_eval_unsolved_witness :
    ∃ next q, set_eval_for_single_pv
        { blankEval 1 with movesToMate := [7], bestMoveQ := [0], centipawns := [3] }
        (rootOneUnsolved (1 / 4)) 0 [] = some (next, true) ∧
      next.movesToMate[0]? = some 0 ∧
      next.bestMoveQ[0]? = some q ∧
      q = (rootOneUnsolved (1 / 4)).get_q_value
        (selected_child_index (rootOneUnsolved (1 / 4)) [] 0) ∧
      next.centipawns[0]? = some (value_to_centipawn q) :=
  set_eval_unsolved { blankEval 1 with movesToMate := [7], bestMoveQ := [0], centipawns := [3] }
    (rootOneUnsolved (1 / 4)) 0 [] ⟨true, NodeType.UNSOLVED, [20]⟩ (Or.inl rfl)
    (by simp) (by simp) (by simp) rfl rfl (by decide) (by decide)

theorem log_base_pos : 0 < Real.log 1.2 :=
  Real.log_pos (by norm_num)

theorem sgn_of_pos {v : ℝ} (h : 0 < v) : sgn v = 1 := by
  simp [sgn, h, not_lt.mpr h.le]

theorem sgn_of_neg {v : ℝ} (h : v < 0) : sgn v = -1 := by
  simp [sgn, h, not_lt.mpr h.le]

theorem sgn_zero : sgn 0 = 0 := by
  simp [sgn]

theorem sgn_neg (v : ℝ) : sgn (-v) = -sgn v := by
  rcases lt_trichotomy v 0 with h | h | h
  · rw [sgn_of_neg h, sgn_of_pos (by linarith : (0 : ℝ) < -v)]; simp
  · subst h; simp [sgn_zero]
  · rw [sgn_of_pos h, sgn_of_neg (by linarith : -v < 0)]

theorem sgn_eq_sign (v : ℝ) : sgn v = (SignType.sign v : ℤ) := by
  rcases lt_trichotomy v 0 with h | h | h
  · rw [sgn_of_neg h, sign_neg h]; rfl
  · subst h; simp [sgn_zero]
  · rw [sgn_of_pos h, sign_pos h]; rfl

theorem truncToInt_of_nonneg {x : ℝ} (h : 0 ≤ x) : truncToInt x = ⌊x⌋ := by
  simp [truncToInt, h]

theorem truncToInt_of_nonpos {x : ℝ} (h : x ≤ 0) : truncToInt x = ⌈x⌉ := by
  rcases eq_or_lt_of_le h with h0 | h0
  · subst h0; simp [truncToInt]
  · simp [truncToInt, not_le.mpr h0]

theorem truncToInt_neg (x : ℝ) : truncToInt (-x) = -truncToInt x := by
  rcases le_total 0 x with h | h
  · rw [truncToInt_of_nonneg h, truncToInt_of_nonpos (by linarith : -x ≤ 0), Int.ceil_neg]
  · rw [truncToInt_of_nonpos h, truncToInt_of_nonneg (by linarith : 0 ≤ -x), Int.floor_neg]

theorem truncToInt_mono {x y : ℝ} (h : x ≤ y) : truncToInt x ≤ truncToInt y := by
  rcases le_total 0 x with hx | hx
  · rw [truncToInt_of_nonneg hx, truncToInt_of_nonneg (hx.trans h)]
    exact Int.floor_mono h
  · rcases le_total 0 y with hy | hy
    · rw [truncToInt_of_nonpos hx, truncToInt_of_nonneg hy]
      have h1 : ⌈x⌉ ≤ 0 := Int.ceil_le.mpr (by simpa using hx)
      have h2 : 0 ≤ ⌊y⌋ := Int.floor_nonneg.mpr hy
      omega
    · rw [truncToInt_of_nonpos hx, truncToInt_of_nonpos hy]
      exact Int.ceil_mono h

/-- C7. For every value `v` with `|v| ≥ 1`, `value_to_centipawn(v)` is `sign(v) * 9999`; in
particular `value_to_centipawn(1.0) = 9999` and `value_to_centipawn(-1.0) = -9999`. -/
theorem value_to_centipawn_saturates (v : ℝ) (h : 1 ≤ |v|) :
    value_to_centipawn v = (SignType.sign v : ℤ) * 9999 ∧
    value_to_centipawn 1 = 9999 ∧ value_to_centipawn (-1) = -9999 := by
  refine ⟨?_, ?_, ?_⟩
  · rw [value_to_centipawn, if_pos h, sgn_eq_sign]
  · rw [value_to_centipawn, if_pos (by norm_num), sgn_of_pos (by norm_num)]; norm_num
  · rw [value_to_centipawn, if_pos (by norm_num), sgn_of_neg (by norm_num)]; norm_num

/-- Witness of C7: the value `3 / 2`. -/
theorem value_to_centipawn_saturates_witness :
    (1 : ℝ) ≤ |(3 / 2 : ℝ)| ∧
    (value_to_centipawn (3 / 2) = (SignType.sign (3 / 2 : ℝ) : ℤ) * 9999 ∧
      value_to_centipawn 1 = 9999 ∧ value_to_centipawn (-1) = -9999) :=
  ⟨by norm_num [abs_of_pos], value_to_centipawn_saturates (3 / 2) (by norm_num [abs_of_pos])⟩

/-- C9. `value_to_centipawn(v) = -value_to_centipawn(-v)` for every `v`, in particular
for `|v| < 1`, and `value_to_centipawn(0) = 0`. -/
theorem value_to_centipawn_odd (v : ℝ) :
    value_to_centipawn v = -value_to_centipawn (-v) ∧ value_to_centipawn 0 = 0 := by
  constructor
  · unfold value_to_centipawn
    rw [abs_neg, sgn_neg]
    by_cases h : |v| ≥ 1
    · simp [h]
    · simp only [h, if_false]
      rw [← truncToInt_neg]
      congr 1
      push_cast
      ring
  · simp [value_to_centipawn, sgn_zero, truncToInt]

theorem log_gap_nonpos {v : ℝ} (h : |v| < 1) : Real.log (1 - |v|) ≤ 0 :=
  Real.log_nonpos (by linarith) (by linarith [abs_nonneg v])

theorem scaled_log_nonneg {v : ℝ} (h : |v| < 1) :
    0 ≤ -Real.log (1 - |v|) / Real.log 1.2 * 100 := by
  have h1 := log_gap_nonpos h
  have h2 := log_base_pos
  have : 0 ≤ -Real.log (1 - |v|) / Real.log 1.2 := div_nonneg (by linarith) h2.le
  linarith

theorem scaled_log_lt {a : ℝ} (ha : 0 < a) (p q : ℕ) (hq : 0 < q)
    (h : a ^ q < (1.2 : ℝ) ^ p) : Real.log a / Real.log 1.2 < (p : ℝ) / q := by
  have hlog : Real.log (a ^ q) < Real.log ((1.2 : ℝ) ^ p) :=
    Real.log_lt_log (by positivity) h
  rw [Real.log_pow, Real.log_pow] at hlog
  have hq0 : (0 : ℝ) < q := by exact_mod_cast hq
  rw [div_lt_div_iff₀ log_base_pos hq0]
  linarith

/-- The argument of `int(...)` in `value_to_centipawn`. -/
theorem scaled_arg_of_nonneg {v : ℝ} (hv : 0 ≤ v) :
    -((sgn v : ℝ) * Real.log (1 - |v|) / Real.log 1.2) * 100 =
      -Real.log (1 - v) / Real.log 1.2 * 100 := by
  rcases eq_or_lt_of_le hv with h | h
  · subst h; simp [sgn_zero]
  · rw [sgn_of_pos h, abs_of_pos h]; push_cast; ring

theorem scaled_arg_of_neg {v : ℝ} (hv : v < 0) :
    -((sgn v : ℝ) * Real.log (1 - |v|) / Real.log 1.2) * 100 =
      Real.log (1 + v) / Real.log 1.2 * 100 := by
  rw [sgn_of_neg hv, abs_of_neg hv]; push_cast
  rw [sub_neg_eq_add]; ring

theorem scaled_arg_mono {v w : ℝ} (hv : |v| < 1) (hw : |w| < 1) (h : v ≤ w) :
    -((sgn v : ℝ) * Real.log (1 - |v|) / Real.log 1.2) * 100 ≤
      -((sgn w : ℝ) * Real.log (1 - |w|) / Real.log 1.2) * 100 := by
  have hK := log_base_pos
  have hv' := abs_lt.mp hv
  have hw' := abs_lt.mp hw
  rcases lt_or_le v 0 with hv0 | hv0
  · rcases lt_or_le w 0 with hw0 | hw0
    · rw [scaled_arg_of_neg hv0, scaled_arg_of_neg hw0]
      have hl : Real.log (1 + v) ≤ Real.log (1 + w) :=
        (Real.log_le_log_iff (by linarith) (by linarith)).mpr (by linarith)
      have := div_le_div_of_nonneg_right hl hK.le
      linarith
    · rw [scaled_arg_of_neg hv0, scaled_arg_of_nonneg hw0]
      have h1 : Real.log (1 + v) ≤ 0 := Real.log_nonpos (by linarith) (by linarith)
      have h2 : Real.log (1 - w) ≤ 0 := Real.log_nonpos (by linarith) (by linarith)
      have h3 : Real.log (1 + v) / Real.log 1.2 ≤ 0 := div_nonpos_of_nonpos_of_nonneg h1 hK.le
      have h4 : 0 ≤ -Real.log (1 - w) / Real.log 1.2 := div_nonneg (by linarith) hK.le
      linarith
  · have hw0 : 0 ≤ w := hv0.trans h
    rw [scaled_arg_of_nonneg hv0, scaled_arg_of_nonneg hw0]
    have hl : Real.log (1 - w) ≤ Real.log (1 - v) :=
      (Real.log_le_log_iff (by linarith) (by linarith)).mpr (by linarith)
    have := div_le_div_of_nonneg_right (neg_le_neg hl) hK.le
    linarith

/-- A `float` below one in magnitude stays `2 ^ (-24)` away from one. -/
theorem binary32_gap {v : ℝ} (hb : isBinary32 v) (h : |v| < 1) :
    |v| ≤ 1 - 1 / 2 ^ 24 := by
  obtain ⟨m, k, hm, -, rfl⟩ := hb
  have hpos : (0 : ℝ) < 2 ^ 149 := by positivity
  have habs : |(m : ℝ) * 2 ^ k / 2 ^ 149| = ((m.natAbs : ℕ) : ℝ) * 2 ^ k / 2 ^ 149 := by
    rw [abs_div, abs_mul, abs_of_pos hpos, abs_of_pos (by positivity : (0 : ℝ) < 2 ^ k)]
    congr 2
    rw [Nat.cast_natAbs, Int.cast_abs]
  rw [habs] at h ⊢
  have hn : m.natAbs < 2 ^ 24 := by
    have : (m.natAbs : ℤ) < 2 ^ 24 := by rw [Int.natCast_natAbs]; exact hm
    exact_mod_cast this
  generalize m.natAbs = n at h hn ⊢
  rcases le_or_lt 125 k with hk | hk
  · obtain ⟨j, rfl⟩ := Nat.exists_eq_add_of_le hk
    have hnat : n * 2 ^ j < 2 ^ 24 := by
      have h1 : (n : ℝ) * 2 ^ (125 + j) / 2 ^ 149 = ((n * 2 ^ j : ℕ) : ℝ) / 2 ^ 24 := by
        push_cast
        rw [pow_add, div_eq_div_iff (by positivity) (by positivity)]
        ring
      rw [h1, div_lt_one (by positivity)] at h
      exact_mod_cast h
    have hle : n * 2 ^ j ≤ 2 ^ 24 - 1 := by omega
    have h1 : (n : ℝ) * 2 ^ (125 + j) / 2 ^ 149 = ((n * 2 ^ j : ℕ) : ℝ) / 2 ^ 24 := by
      push_cast
      rw [pow_add, div_eq_div_iff (by positivity) (by positivity)]
      ring
    rw [h1]
    have hle' : ((n * 2 ^ j : ℕ) : ℝ) ≤ 2 ^ 24 - 1 := by
      have : ((n * 2 ^ j : ℕ) : ℝ) ≤ ((2 ^ 24 - 1 : ℕ) : ℝ) := by exact_mod_cast hle
      refine this.trans ?_
      norm_num
    rw [div_le_iff₀ (by positivity)]
    have : ((1 : ℝ) - 1 / 2 ^ 24) * 2 ^ 24 = 2 ^ 24 - 1 := by norm_num
    linarith
  · have hk' : k ≤ 124 := by omega
    have hpow : (2 : ℝ) ^ k ≤ 2 ^ 124 := pow_le_pow_right₀ (by norm_num) hk'
    have hn' : (n : ℝ) ≤ 2 ^ 24 := by
      have : (n : ℝ) < ((2 ^ 24 : ℕ) : ℝ) := by exact_mod_cast hn
      have h2 : ((2 ^ 24 : ℕ) : ℝ) = 2 ^ 24 := by norm_num
      linarith
    have hprod : (n : ℝ) * 2 ^ k ≤ 2 ^ 24 * 2 ^ 124 :=
      mul_le_mul hn' hpow (by positivity) (by positivity)
    rw [div_le_iff₀ hpos]
    have : ((1 : ℝ) - 1 / 2 ^ 24) * 2 ^ 149 ≥ 2 ^ 24 * 2 ^ 124 := by norm_num
    linarith
theorem binary32_scaled_log_lt {v : ℝ} (hb : isBinary32 v) (h : |v| < 1) :
    -Real.log (1 - |v|) / Real.log 1.2 * 100 < 10000 := by
  have hgap := binary32_gap hb h
  have hK := log_base_pos
  have hlow : ((2 : ℝ) ^ 24)⁻¹ ≤ 1 - |v| := by
    have : ((2 : ℝ) ^ 24)⁻¹ = 1 / 2 ^ 24 := by norm_num
    linarith
  have hlog : -Real.log ((2 : ℝ) ^ 24) ≤ Real.log (1 - |v|) := by
    rw [← Real.log_inv]
    exact (Real.log_le_log_iff (by positivity) (by linarith)).mpr hlow
  have hratio := scaled_log_lt (by positivity : (0 : ℝ) < 2 ^ 24) 100 1 (by norm_num)
    (by norm_num)
  have hdiv : -Real.log (1 - |v|) / Real.log 1.2 ≤ Real.log ((2 : ℝ) ^ 24) / Real.log 1.2 :=
    div_le_div_of_nonneg_right (by linarith) hK.le
  have : ((100 : ℕ) : ℝ) / ((1 : ℕ) : ℝ) = 100 := by norm_num
  linarith

theorem scaled_arg_abs {v : ℝ} :
    |-((sgn v : ℝ) * Real.log (1 - |v|) / Real.log 1.2) * 100| ≤
      |-Real.log (1 - |v|) / Real.log 1.2 * 100| := by
  rcases lt_trichotomy v 0 with hv | hv | hv
  · rw [sgn_of_neg hv]
    have : -((((-1 : ℤ)) : ℝ) * Real.log (1 - |v|) / Real.log 1.2) * 100 =
        -(-Real.log (1 - |v|) / Real.log 1.2 * 100) := by push_cast; ring
    rw [this, abs_neg]
  · subst hv; simp [sgn_zero]
  · rw [sgn_of_pos hv]
    have : -((((1 : ℤ)) : ℝ) * Real.log (1 - |v|) / Real.log 1.2) * 100 =
        -Real.log (1 - |v|) / Real.log 1.2 * 100 := by push_cast; ring
    rw [this]

theorem truncToInt_abs_le {x : ℝ} {n : ℤ} (h : |x| < (n : ℝ) + 1) :
    |truncToInt x| ≤ n := by
  have hx := abs_lt.mp h
  rcases le_total 0 x with h0 | h0
  · rw [truncToInt_of_nonneg h0, abs_of_nonneg (Int.floor_nonneg.mpr h0)]
    have : ⌊x⌋ < n + 1 := Int.floor_lt.mpr (by push_cast; exact hx.2)
    omega
  · rw [truncToInt_of_nonpos h0, abs_of_nonpos (Int.ceil_le.mpr (by simpa using h0))]
    have : -(n + 1) < ⌈x⌉ := Int.lt_ceil.mpr (by push_cast; linarith)
    omega

theorem binary32_value_bound {v : ℝ} (hb : isBinary32 v) (h : |v| < 1) :
    |value_to_centipawn v| ≤ 9999 := by
  rw [value_to_centipawn, if_neg (not_le.mpr h)]
  apply truncToInt_abs_le
  refine lt_of_le_of_lt scaled_arg_abs ?_
  rw [abs_of_nonneg (scaled_log_nonneg h)]
  have := binary32_scaled_log_lt hb h
  push_cast
  linarith

theorem abs_ge_one_cases {v : ℝ} (h1 : -1 ≤ v) (h2 : v ≤ 1) (h : ¬ |v| < 1) :
    v = -1 ∨ v = 1 := by
  rcases le_total 0 v with h0 | h0
  · rw [abs_of_nonneg h0] at h
    right; linarith
  · rw [abs_of_nonpos h0] at h
    left; linarith

theorem value_to_centipawn_one : value_to_centipawn 1 = 9999 := by
  rw [value_to_centipawn, if_pos (by norm_num), sgn_of_pos (by norm_num)]; norm_num

theorem value_to_centipawn_neg_one : value_to_centipawn (-1) = -9999 := by
  rw [value_to_centipawn, if_pos (by norm_num), sgn_of_neg (by norm_num)]; norm_num

/-- C10. Over the `float` values of `[-1, 1]`, `value_to_centipawn` is monotonically
increasing: `v1 ≤ v2` gives `value_to_centipawn(v1) ≤ value_to_centipawn(v2)`, also across
the saturation boundary `|v| = 1`, because every `float` with `|v| < 1` maps to a score
of magnitude at most `9999`. -/
theorem value_to_centipawn_monotone (v w : ℝ) (hv : isBinary32 v) (hw : isBinary32 w)
    (h1 : -1 ≤ v) (h : v ≤ w) (h2 : w ≤ 1) :
    value_to_centipawn v ≤ value_to_centipawn w ∧
    (|v| < 1 → |value_to_centipawn v| ≤ 9999) := by
  refine ⟨?_, fun hlt => binary32_value_bound hv hlt⟩
  by_cases hva : |v| < 1
  · have hbv := abs_le.mp (binary32_value_bound hv hva)
    by_cases hwa : |w| < 1
    · rw [value_to_centipawn, if_neg (not_le.mpr hva), value_to_centipawn,
        if_neg (not_le.mpr hwa)]
      exact truncToInt_mono (scaled_arg_mono hva hwa h)
    · rcases abs_ge_one_cases (h1.trans h) h2 hwa with hw1 | hw1
      · subst hw1
        have : |v| = 1 := by
          rw [abs_of_nonpos (by linarith)]; linarith
        linarith
      · subst hw1
        rw [value_to_centipawn_one]
        exact hbv.2
  · rcases abs_ge_one_cases h1 (h.trans h2) hva with hv1 | hv1
    · subst hv1
      rw [value_to_centipawn_neg_one]
      by_cases hwa : |w| < 1
      · exact (abs_le.mp (binary32_value_bound hw hwa)).1
      · rcases abs_ge_one_cases h h2 hwa with hw1 | hw1
        · subst hw1; rw [value_to_centipawn_neg_one]
        · subst hw1; rw [value_to_centipawn_one]; norm_num
    · subst hv1
      have hw1 : w = 1 := le_antisymm h2 h
      subst hw1
      exact le_refl _

/-- Witness of C10: the values `1 / 2` and `1`, on either side of the saturation
boundary. -/
theorem value_to_centipawn_monotone_witness :
    isBinary32 (1 / 2) ∧ isBinary32 1 ∧ (-1 : ℝ) ≤ 1 / 2 ∧ (1 / 2 : ℝ) ≤ 1 ∧ (1 : ℝ) ≤ 1 ∧
    (value_to_centipawn (1 / 2) ≤ value_to_centipawn 1 ∧
      (|(1 / 2 : ℝ)| < 1 → |value_to_centipawn (1 / 2)| ≤ 9999)) :=
  have hhalf : isBinary32 (1 / 2) := ⟨1, 148, by norm_num, by norm_num, by norm_num⟩
  have hone : isBinary32 1 := ⟨1, 149, by norm_num, by norm_num, by norm_num⟩
  ⟨hhalf, hone, by norm_num, by norm_num, le_refl _,
    value_to_centipawn_monotone (1 / 2) 1 hhalf hone (by norm_num) (by norm_num) (le_refl _)⟩

/-- C11. For every `EvalInfo`, `calculate_nps(0)` equals `calculate_nps(1)`: an elapsed
time of 0 ms is replaced by 1 ms before the division. -/
theorem calculate_nps_zero_eq_one (evalInfo : EvalInfo) :
    evalInfo.calculate_nps 0 = evalInfo.calculate_nps 1 := by
  simp [EvalInfo.calculate_nps]

theorem add_empty_node_iterate (Q_INIT : ℝ) (N : Nat) (d : NodeData) :
    ((NodeData.add_empty_node Q_INIT)^[N] d).childNumberVisits =
      d.childNumberVisits ++ List.replicate N 0 ∧
    ((NodeData.add_empty_node Q_INIT)^[N] d).actionValues =
      d.actionValues ++ List.replicate N 0 ∧
    ((NodeData.add_empty_node Q_INIT)^[N] d).qValues =
      d.qValues ++ List.replicate N Q_INIT ∧
    ((NodeData.add_empty_node Q_INIT)^[N] d).childNodes =
      d.childNodes ++ List.replicate N none ∧
    ((NodeData.add_empty_node Q_INIT)^[N] d).noVisitIdx = d.noVisitIdx := by
  induction N generalizing d with
  | zero => simp
  | succ N ih =>
    rw [Function.iterate_succ_apply]
    obtain ⟨h1, h2, h3, h4, h5⟩ := ih (NodeData.add_empty_node Q_INIT d)
    rw [h1, h2, h3, h4, h5]
    simp [NodeData.add_empty_node, append, List.replicate_succ]

/-- C13. In a `NodeData` whose four per-child sequences have equal length `m`,
`add_empty_node` keeps every existing entry and appends one entry to each sequence: visit
count 0, action value 0.0, combined value `Q_INIT` and a null child, so each sequence has
length `m + 1`; hence `N` calls on empty sequences give four sequences of length `N`. -/
theorem add_empty_node_appends (Q_INIT : ℝ) (d : NodeData) (m : Nat)
    (hv : d.childNumberVisits.length = m) (ha : d.actionValues.length = m)
    (hq : d.qValues.length = m) (hc : d.childNodes.length = m) :
    (d.add_empty_node Q_INIT).childNumberVisits = d.childNumberVisits ++ [0] ∧
    (d.add_empty_node Q_INIT).actionValues = d.actionValues ++ [0] ∧
    (d.add_empty_node Q_INIT).qValues = d.qValues ++ [Q_INIT] ∧
    (d.add_empty_node Q_INIT).childNodes = d.childNodes ++ [none] ∧
    (d.add_empty_node Q_INIT).childNumberVisits.length = m + 1 ∧
    (d.add_empty_node Q_INIT).actionValues.length = m + 1 ∧
    (d.add_empty_node Q_INIT).qValues.length = m + 1 ∧
    (d.add_empty_node Q_INIT).childNodes.length = m + 1 ∧
    (m = 0 → ∀ N : Nat,
      ((NodeData.add_empty_node Q_INIT)^[N] d).childNumberVisits.length = N ∧
      ((NodeData.add_empty_node Q_INIT)^[N] d).actionValues.length = N ∧
      ((NodeData.add_empty_node Q_INIT)^[N] d).qValues.length = N ∧
      ((NodeData.add_empty_node Q_INIT)^[N] d).childNodes.length = N ∧
      (0 < N → ((NodeData.add_empty_node Q_INIT)^[N] d).qValues.getLast? = some Q_INIT)) := by
  refine ⟨rfl, rfl, rfl, rfl, ?_, ?_, ?_, ?_, ?_⟩
  · simp [NodeData.add_empty_node, append, hv]
  · simp [NodeData.add_empty_node, append, ha]
  · simp [NodeData.add_empty_node, append, hq]
  · simp [NodeData.add_empty_node, hc]
  · intro hm N
    subst hm
    obtain ⟨h1, h2, h3, h4, -⟩ := add_empty_node_iterate Q_INIT N d
    rw [h1, h2, h3, h4]
    refine ⟨by simp [hv], by simp [ha], by simp [hq], by simp [hc], ?_⟩
    intro hN
    obtain ⟨k, rfl⟩ := Nat.exists_eq_succ_of_ne_zero (Nat.pos_iff_ne_zero.mp hN)
    rw [List.replicate_succ', ← List.append_assoc, List.getLast?_append]
    simp

/-- Witness of C13: the blank `NodeData`, with `Q_INIT = -1`. -/
theorem add_empty_node_appends_witness :
    (NodeData.blank.add_empty_node (-1)).qValues = NodeData.blank.qValues ++ [-1] ∧
    (NodeData.blank.add_empty_node (-1)).childNodes.length = 0 + 1 ∧
    ((NodeData.add_empty_node (-1))^[3] NodeData.blank).qValues.length = 3 :=
  have h := add_empty_node_appends (-1) NodeData.blank 0 rfl rfl rfl rfl
  ⟨h.2.2.1, h.2.2.2.2.2.2.2.1, (h.2.2.2.2.2.2.2.2 rfl 3).2.2.1⟩

theorem reserve_initial_space_eq (Q_INIT : ℝ) (PRESERVED_ITEMS : Int) (d : NodeData) :
    d.reserve_initial_space Q_INIT PRESERVED_ITEMS =
      if min PRESERVED_ITEMS (toInt d.numberUnsolvedChildNodes) < 0 then none
      else some (d.add_empty_node Q_INIT) := by
  unfold NodeData.reserve_initial_space reserve
  by_cases h : min PRESERVED_ITEMS (toInt d.numberUnsolvedChildNodes) < 0
  · simp [h]
  · simp [h]

theorem new_eq (Q_INIT : ℝ) (PRESERVED_ITEMS : Int) (NO_CHECKMATE COUNT_BITS n : Nat) :
    NodeData.new Q_INIT PRESERVED_ITEMS NO_CHECKMATE COUNT_BITS n =
      if min PRESERVED_ITEMS (toInt (n % 2 ^ COUNT_BITS)) < 0 then none
      else some (NodeData.fresh Q_INIT NO_CHECKMATE (n % 2 ^ COUNT_BITS)) := by
  unfold NodeData.new
  simp only [reserve_initial_space_eq]
  rfl

theorem new_some (Q_INIT : ℝ) (PRESERVED_ITEMS : Int) (NO_CHECKMATE COUNT_BITS n : Nat)
    (d : NodeData) (h : NodeData.new Q_INIT PRESERVED_ITEMS NO_CHECKMATE COUNT_BITS n = some d) :
    d = NodeData.fresh Q_INIT NO_CHECKMATE (n % 2 ^ COUNT_BITS) := by
  rw [new_eq] at h
  split at h
  · exact absurd h (by simp)
  · exact (Option.some.inj h).symm

/-- C14, counterexample. For `numberChildNodes = 2 ^ 31` the constructor does not build
the claimed state: with a member of 64 bits `int(numberUnsolvedChildNodes)` is
`-2147483648`, `reserve` is called with a negative size and throws; with a member of 16
bits the stored count is 0. -/
theorem new_node_data_fails_at_two_pow_31 :
    toInt (2 ^ 31) = -2147483648 ∧
    NodeData.new (-1) 8 65535 64 (2 ^ 31) = none ∧
    (NodeData.new (-1) 8 65535 16 (2 ^ 31)).map (fun d => d.numberUnsolvedChildNodes) =
      some 0 := by
  refine ⟨by decide, ?_, ?_⟩
  · rw [new_eq]
    have h : toInt (2 ^ 31 % 2 ^ 64) = -2147483648 := by decide
    rw [h]
    simp
  · rw [new_eq]
    have h : toInt (2 ^ 31 % 2 ^ 16) = 0 := by decide
    rw [h]
    simp [NodeData.fresh]

/-- C14, amended. For every `numberChildNodes` `n` (0 included) that the member
`numberUnsolvedChildNodes` can hold and whose conversion `int(n)` is not negative, with a
non-negative `PRESERVED_ITEMS`, the constructor returns, and the freshly constructed
`NodeData(n)` has `numberUnsolvedChildNodes = n`, `nodeType = UNSOLVED`, `endInPly = 0`,
`terminalVisits = 0`, `checkmateIdx = NO_CHECKMATE`, and exactly one slot in each of the
four per-child sequences, holding visit count 0, action value 0.0, combined value
`Q_INIT` and a null child. -/
theorem new_node_data_fields (Q_INIT : ℝ) (PRESERVED_ITEMS : Int)
    (NO_CHECKMATE COUNT_BITS n : Nat) (hP : 0 ≤ PRESERVED_ITEMS)
    (hn : n < 2 ^ COUNT_BITS) (hint : 0 ≤ toInt n) :
    ∃ d, NodeData.new Q_INIT PRESERVED_ITEMS NO_CHECKMATE COUNT_BITS n = some d ∧
      d.numberUnsolvedChildNodes = n ∧
      d.nodeType = NodeType.UNSOLVED ∧
      d.endInPly = 0 ∧
      d.terminalVisits = 0 ∧
      d.checkmateIdx = NO_CHECKMATE ∧
      d.childNumberVisits = [0] ∧
      d.actionValues = [0] ∧
      d.qValues = [Q_INIT] ∧
      d.childNodes = [none] := by
  have hmod : n % 2 ^ COUNT_BITS = n := Nat.mod_eq_of_lt hn
  refine ⟨NodeData.fresh Q_INIT NO_CHECKMATE n, ?_, rfl, rfl, rfl, rfl, rfl, rfl, rfl, rfl, rfl⟩
  rw [new_eq, hmod, if_neg (not_lt.mpr (le_min hP hint))]

/-- Witness of C14, amended: `NodeData(0)` and `NodeData(3)` with a member of 16 bits. -/
theorem new_node_data_fields_witness :
    (0 : Int) ≤ 8 ∧ 3 < 2 ^ 16 ∧ 0 ≤ toInt 3 ∧
    (∃ d, NodeData.new (-1) 8 65535 16 3 = some d ∧
      d.numberUnsolvedChildNodes = 3 ∧
      d.nodeType = NodeType.UNSOLVED ∧
      d.endInPly = 0 ∧
      d.terminalVisits = 0 ∧
      d.checkmateIdx = 65535 ∧
      d.childNumberVisits = [0] ∧
      d.actionValues = [0] ∧
      d.qValues = [-1] ∧
      d.childNodes = [none]) :=
  ⟨by decide, by decide, by decide,
    new_node_data_fields (-1) 8 65535 16 3 (by decide) (by decide) (by decide)⟩

theorem new_then_add (Q_INIT : ℝ) (PRESERVED_ITEMS : Int) (NO_CHECKMATE COUNT_BITS n N : Nat)
    (d : NodeData)
    (h : NodeData.new Q_INIT PRESERVED_ITEMS NO_CHECKMATE COUNT_BITS n = some d) :
    ((NodeData.add_empty_node Q_INIT)^[N] d).childNumberVisits = List.replicate (N + 1) 0 ∧
    ((NodeData.add_empty_node Q_INIT)^[N] d).qValues = List.replicate (N + 1) Q_INIT ∧
    ((NodeData.add_empty_node Q_INIT)^[N] d).noVisitIdx = 1 := by
  have hd := new_some Q_INIT PRESERVED_ITEMS NO_CHECKMATE COUNT_BITS n d h
  subst hd
  obtain ⟨h1, -, h3, -, h5⟩ := add_empty_node_iterate Q_INIT N
    (NodeData.fresh Q_INIT NO_CHECKMATE (n % 2 ^ COUNT_BITS))
  rw [h1, h3, h5]
  refine ⟨?_, ?_, rfl⟩
  · simp [NodeData.fresh, List.replicate_succ]
  · simp [NodeData.fresh, List.replicate_succ]

theorem new_three :
    NodeData.new (-1) 8 65535 16 3 = some (NodeData.fresh (-1) 65535 3) := by
  rw [new_eq]
  have h : toInt (3 % 2 ^ 16) = 3 := by decide
  rw [h]
  simp

/-- C15, counterexample. The freshly constructed `NodeData(3)` has `noVisitIdx = 1`, while
none of its children has a visit count of at least one. -/
theorem new_node_data_prefix_not_visited_count :
    ∃ d, NodeData.new (-1) 8 65535 16 3 = some d ∧
      d.noVisitIdx = 1 ∧ d.visitedChildren = 0 ∧ d.noVisitIdx ≠ d.visitedChildren := by
  refine ⟨_, new_three, ?_, ?_, ?_⟩ <;>
    simp [NodeData.fresh, NodeData.visitedChildren]

/-- C15, amended. After the construction of `NodeData(n)` and any number of
`add_empty_node` calls, `noVisitIdx` is 1 and no child has a visit count of at least one:
the populated prefix is one entry longer than the number of visited children. -/
theorem prefix_is_one_more_than_visited (Q_INIT : ℝ) (PRESERVED_ITEMS : Int)
    (NO_CHECKMATE COUNT_BITS n N : Nat) (d : NodeData)
    (h : NodeData.new Q_INIT PRESERVED_ITEMS NO_CHECKMATE COUNT_BITS n = some d) :
    ((NodeData.add_empty_node Q_INIT)^[N] d).noVisitIdx = 1 ∧
    ((NodeData.add_empty_node Q_INIT)^[N] d).visitedChildren = 0 ∧
    ((NodeData.add_empty_node Q_INIT)^[N] d).noVisitIdx =
      ((NodeData.add_empty_node Q_INIT)^[N] d).visitedChildren + 1 := by
  obtain ⟨h1, -, h3⟩ := new_then_add Q_INIT PRESERVED_ITEMS NO_CHECKMATE COUNT_BITS n N d h
  have hv : ((NodeData.add_empty_node Q_INIT)^[N] d).visitedChildren = 0 := by
    rw [NodeData.visitedChildren, h1, List.countP_eq_zero]
    intro v hv
    rw [List.eq_of_mem_replicate hv]
    simp
  exact ⟨h3, hv, by rw [h3, hv]⟩

/-- Witness of C15, amended: `NodeData(3)` followed by two `add_empty_node` calls. -/
theorem prefix_is_one_more_than_visited_witness :
    NodeData.new (-1) 8 65535 16 3 = some (NodeData.fresh (-1) 65535 3) ∧
    ((NodeData.add_empty_node (-1))^[2] (NodeData.fresh (-1) 65535 3)).noVisitIdx = 1 ∧
    ((NodeData.add_empty_node (-1))^[2] (NodeData.fresh (-1) 65535 3)).visitedChildren = 0 ∧
    ((NodeData.add_empty_node (-1))^[2] (NodeData.fresh (-1) 65535 3)).noVisitIdx =
      ((NodeData.add_empty_node (-1))^[2] (NodeData.fresh (-1) 65535 3)).visitedChildren + 1 :=
  ⟨new_three,
    prefix_is_one_more_than_visited (-1) 8 65535 16 3 2 (NodeData.fresh (-1) 65535 3) new_three⟩

/-- C16. For every `NodeData` reached by the constructor followed by any number of
`add_empty_node` calls, `noVisitIdx ≤ length(qValues)`, so `get_q_values` is in bounds and
returns a view of exactly `noVisitIdx` elements whose `i`-th element is `qValues[i]`. -/
theorem get_q_values_in_bounds (Q_INIT : ℝ) (PRESERVED_ITEMS : Int)
    (NO_CHECKMATE COUNT_BITS n N : Nat) (d : NodeData)
    (h : NodeData.new Q_INIT PRESERVED_ITEMS NO_CHECKMATE COUNT_BITS n = some d) :
    ((NodeData.add_empty_node Q_INIT)^[N] d).noVisitIdx ≤
      ((NodeData.add_empty_node Q_INIT)^[N] d).qValues.length ∧
    ∃ view,
      ((NodeData.add_empty_node Q_INIT)^[N] d).get_q_values = some view ∧
      view.length = ((NodeData.add_empty_node Q_INIT)^[N] d).noVisitIdx ∧
      ∀ i, i < ((NodeData.add_empty_node Q_INIT)^[N] d).noVisitIdx →
        view[i]? = ((NodeData.add_empty_node Q_INIT)^[N] d).qValues[i]? := by
  obtain ⟨-, h2, h3⟩ := new_then_add Q_INIT PRESERVED_ITEMS NO_CHECKMATE COUNT_BITS n N d h
  generalize (NodeData.add_empty_node Q_INIT)^[N] d = e at h2 h3
  have hle : e.noVisitIdx ≤ e.qValues.length := by rw [h2, h3]; simp
  refine ⟨hle, e.qValues.take e.noVisitIdx, ?_, ?_, ?_⟩
  · simp [NodeData.get_q_values, subvector, hle]
  · simp [hle]
  · intro i hi
    simp [List.getElem?_take, hi]

/-- Witness of C16: `NodeData(3)` followed by two `add_empty_node` calls. -/
theorem get_q_values_in_bounds_witness :
    NodeData.new (-1) 8 65535 16 3 = some (NodeData.fresh (-1) 65535 3) ∧
    ((NodeData.add_empty_node (-1))^[2] (NodeData.fresh (-1) 65535 3)).noVisitIdx ≤
      ((NodeData.add_empty_node (-1))^[2] (NodeData.fresh (-1) 65535 3)).qValues.length ∧
    ∃ view,
      ((NodeData.add_empty_node (-1))^[2] (NodeData.fresh (-1) 65535 3)).get_q_values =
        some view ∧
      view.length =
        ((NodeData.add_empty_node (-1))^[2] (NodeData.fresh (-1) 65535 3)).noVisitIdx ∧
      ∀ i, i < ((NodeData.add_empty_node (-1))^[2] (NodeData.fresh (-1) 65535 3)).noVisitIdx →
        view[i]? =
          ((NodeData.add_empty_node (-1))^[2] (NodeData.fresh (-1) 65535 3)).qValues[i]? :=
  ⟨new_three,
    get_q_values_in_bounds (-1) 8 65535 16 3 2 (NodeData.fresh (-1) 65535 3) new_three⟩

theorem gather_range (n : Nat) :
    ∀ p : List Nat, (∀ i ∈ p, i < n) → gather (List.range n) p = some p
  | [], _ => rfl
  | i :: p, h => by
    have hi : i < n := h i (List.mem_cons_self _ _)
    have hp := gather_range n p (fun j hj => h j (List.mem_cons_of_mem _ hj))
    simp [gather, hp, List.getElem?_range hi]

theorem gather_getElem {α : Type} (vec : List α) :
    ∀ (p : List Nat) (l : List α), gather vec p = some l →
      l.length = p.length ∧ ∀ r i : Nat, p[r]? = some i → l[r]? = vec[i]? ∧ i < vec.length
  | [], l, h => by
    simp [gather] at h
    subst h
    simp
  | i :: p, l, h => by
    unfold gather at h
    cases hx : vec[i]? with
    | none => simp [hx] at h
    | some x =>
      cases hxs : gather vec p with
      | none => simp [hx, hxs] at h
      | some xs =>
        simp [hx, hxs] at h
        subst h
        obtain ⟨hlen, hget⟩ := gather_getElem vec p xs hxs
        refine ⟨by simp [hlen], ?_⟩
        intro r j hr
        cases r with
        | zero =>
          simp at hr
          subst hr
          refine ⟨by simp [hx], ?_⟩
          by_contra hge
          rw [List.getElem?_eq_none (not_lt.mp hge)] at hx
          exact absurd hx (by simp)
        | succ r =>
          simp at hr
          simpa using hget r j hr

theorem apply_permutation_eq_gather {α : Type} (vec : List α) (p : List Nat)
    (hlen : p.length = vec.length) :
    apply_permutation_in_place vec p = gather vec p := by
  unfold apply_permutation_in_place
  rw [hlen, List.drop_length]
  cases gather vec p <;> simp

theorem snapshot_policy_length (evalInfo : EvalInfo) (rootNode : Node) :
    (snapshot evalInfo rootNode).policyProbSmall.length = rootNode.get_number_child_nodes := by
  simp [snapshot, length_resize]

theorem sorted_lists_eq (evalInfo : EvalInfo) (rootNode : Node)
    (hwf : rootNode.get_number_child_nodes = rootNode.get_legal_moves.length)
    (hmax : 1 < maxLines evalInfo rootNode) :
    ∃ policy legal,
      gather (snapshot evalInfo rootNode).policyProbSmall
        (sort_permutation (snapshot evalInfo rootNode).policyProbSmall (fun a b => a > b)) =
          some policy ∧
      gather rootNode.get_legal_moves
        (sort_permutation (snapshot evalInfo rootNode).policyProbSmall (fun a b => a > b)) =
          some legal ∧
      sorted_lists evalInfo rootNode =
        some ({ snapshot evalInfo rootNode with policyProbSmall := policy, legalMoves := legal },
          sort_permutation (snapshot evalInfo rootNode).policyProbSmall (fun a b => a > b)) := by
  have hpl := snapshot_policy_length evalInfo rootNode
  have hll : (snapshot evalInfo rootNode).legalMoves = rootNode.get_legal_moves := rfl
  unfold sorted_lists
  rw [if_pos hmax]
  unfold sort_eval_lists
  simp only [List.nil_append]
  have hlt := sort_permutation_lt (snapshot evalInfo rootNode).policyProbSmall (fun a b => a > b)
  have hplen := sort_permutation_length (snapshot evalInfo rootNode).policyProbSmall
    (fun a b => a > b)
  generalize sort_permutation (snapshot evalInfo rootNode).policyProbSmall (fun a b => a > b) = p
    at hlt hplen ⊢
  obtain ⟨policy, hpolicy, -⟩ := gather_some (snapshot evalInfo rootNode).policyProbSmall p hlt
  obtain ⟨legal, hlegal, -⟩ := gather_some rootNode.get_legal_moves p
    (fun i hi => by rw [← hwf, ← hpl]; exact hlt i hi)
  refine ⟨policy, legal, hpolicy, hlegal, ?_⟩
  rw [apply_permutation_eq_gather _ _ hplen, hpolicy,
    apply_permutation_eq_gather _ _ (by rw [hplen, hpl, hwf, hll]), hll, hlegal,
    apply_permutation_eq_gather _ _ (by rw [hplen, hpl, hwf, List.length_range]),
    gather_range _ p (fun i hi => by rw [← hwf, ← hpl]; exact hlt i hi)]
  rfl

theorem sizeToInt_small (x : Nat) (h : x < 2 ^ 31) : sizeToInt x = (x : Int) := by
  have h32 : x % 2 ^ 32 = x := Nat.mod_eq_of_lt (by omega)
  unfold sizeToInt INT_BITS
  rw [h32, if_pos (by simpa using h)]

theorem loss_mate_value (L lines : Nat) (hL : L < 2 ^ 31) :
    sizeToInt (toSizeT (toSizeT L / 2 + toSizeT lines % 2)) =
      ((L / 2 + lines % 2 : Nat) : Int) := by
  have h1 : toSizeT L = L := Nat.mod_eq_of_lt (by simp only [SIZE_BITS]; omega)
  have h2 : toSizeT lines % 2 = lines % 2 := by
    unfold toSizeT SIZE_BITS
    exact Nat.mod_mod_of_dvd lines (by norm_num)
  have h3 : lines % 2 < 2 := Nat.mod_lt _ (by norm_num)
  have h4 : toSizeT (L / 2 + lines % 2) = L / 2 + lines % 2 :=
    Nat.mod_eq_of_lt (by simp only [SIZE_BITS]; omega)
  rw [h1, h2, h4, sizeToInt_small _ (by omega)]

theorem set_eval_solved_loss (evalInfo : EvalInfo) (rootNode : Node) (idx : Nat)
    (indices : List Nat) (nextNode : ChildNode)
    (hidx : idx = 0 ∨ idx < indices.length)
    (hm : idx < evalInfo.movesToMate.length)
    (hchild : rootNode.get_child_node (selected_child_index rootNode indices idx) =
      some nextNode)
    (hplay : nextNode.is_playout_node = true)
    (hloss : nextNode.get_node_type = NodeType.SOLVED_LOSS) :
    set_eval_for_single_pv evalInfo rootNode idx indices =
      some ({ evalInfo with
        pv := evalInfo.pv ++ [rootNode.get_move (selected_child_index rootNode indices idx) ::
          nextNode.continuation]
        movesToMate := evalInfo.movesToMate.set idx
          (sizeToInt (toSizeT (toSizeT (nextNode.continuation.length + 1) / 2 +
            toSizeT (evalInfo.pv.length + 1) % 2))) }, true) := by
  unfold set_eval_for_single_pv
  rw [child_index_eq rootNode indices idx hidx]
  simp [hchild, hplay, hloss, ChildNode.get_principal_variation, writeAt_some _ _ _ hm]

/-- C19. At a rank `idx` whose selected child is a playout node of type `SOLVED_LOSS`,
called as `update_eval_info` does with `idx` lines already in `pv`,
`set_eval_for_single_pv` appends the line to `pv` and stores
`movesToMate[idx] = floor(L / 2) + ((idx + 1) mod 2)`, where `L` is the number of moves of
the line and `idx + 1` is the number of lines in `pv` after the append. -/
theorem solved_loss_mate_count (evalInfo : EvalInfo) (rootNode : Node) (idx : Nat)
    (indices : List Nat) (nextNode : ChildNode)
    (hidx : idx = 0 ∨ idx < indices.length)
    (hm : idx < evalInfo.movesToMate.length)
    (hpv : evalInfo.pv.length = idx)
    (hchild : rootNode.get_child_node (selected_child_index rootNode indices idx) =
      some nextNode)
    (hplay : nextNode.is_playout_node = true)
    (hloss : nextNode.get_node_type = NodeType.SOLVED_LOSS)
    (hL : nextNode.continuation.length + 1 < 2 ^ 31) :
    ∃ next line, set_eval_for_single_pv evalInfo rootNode idx indices = some (next, true) ∧
      next.pv = evalInfo.pv ++ [line] ∧
      next.pv.length = idx + 1 ∧
      next.pv[idx]? = some line ∧
      line = rootNode.get_move (selected_child_index rootNode indices idx) ::
        nextNode.continuation ∧
      next.movesToMate[idx]? = some ((line.length / 2 + (idx + 1) % 2 : Nat) : Int) := by
  have hval := loss_mate_value (nextNode.continuation.length + 1) (idx + 1) hL
  refine ⟨_, rootNode.get_move (selected_child_index rootNode indices idx) ::
    nextNode.continuation,
    set_eval_solved_loss evalInfo rootNode idx indices nextNode hidx hm hchild hplay hloss,
    rfl, ?_, ?_, rfl, ?_⟩
  · simp [hpv]
  · simp only []
    rw [List.getElem?_append_right (by omega)]
    simp [hpv]
  · simp only [List.length_cons, hpv]
    rw [List.getElem?_set_self hm, hval]

/-- Witness of C19: rank 1 of a root with two proven losses whose lines have three
moves; the stored count is `3 / 2 + 2 % 2 = 1`. -/
theorem solved_loss_mate_count_witness :
    ∃ next line, set_eval_for_single_pv
        { blankEval 2 with pv := [[10, 20, 21]], movesToMate := [2, 0] }
        (rootTwoLosses [20, 21]) 1 [0, 1] = some (next, true) ∧
      next.pv = [[10, 20, 21]] ++ [line] ∧
      next.pv.length = 1 + 1 ∧
      next.pv[1]? = some line ∧
      line = (rootTwoLosses [20, 21]).get_move
          (selected_child_index (rootTwoLosses [20, 21]) [0, 1] 1) :: [20, 21] ∧
      next.movesToMate[1]? = some ((line.length / 2 + (1 + 1) % 2 : Nat) : Int) :=
  solved_loss_mate_count { blankEval 2 with pv := [[10, 20, 21]], movesToMate := [2, 0] }
    (rootTwoLosses [20, 21]) 1 [0, 1] ⟨true, NodeType.SOLVED_LOSS, [20, 21]⟩
    (Or.inr (by simp)) (by simp) rfl rfl rfl rfl (by simp)

theorem gather_eq_map {α : Type} (vec : List α) (d : α) :
    ∀ (p : List Nat) (l : List α), gather vec p = some l → l = p.map (fun i => vec.getD i d)
  | [], l, h => by
    simp [gather] at h
    simp [h]
  | i :: p, l, h => by
    unfold gather at h
    cases hx : vec[i]? with
    | none => simp [hx] at h
    | some x =>
      cases hxs : gather vec p with
      | none => simp [hx, hxs] at h
      | some xs =>
        simp [hx, hxs] at h
        subst h
        rw [List.map_cons, ← gather_eq_map vec d p xs hxs]
        simp [List.getD, hx]

theorem sort_permutation_perm (vec : List ℝ) (compare : ℝ → ℝ → Prop) [DecidableRel compare] :
    (sort_permutation vec compare).Perm (List.range vec.length) :=
  List.perm_insertionSort _ _

theorem sort_permutation_descending (vec : List ℝ) :
    List.Pairwise (fun i j => vec.getD j 0 ≤ vec.getD i 0)
      (sort_permutation vec (fun a b => a > b)) := by
  haveI : IsTotal Nat (fun i j => ¬ (vec.getD j 0 > vec.getD i 0)) :=
    ⟨fun i j => by
      rcases le_total (vec.getD i 0) (vec.getD j 0) with h | h
      · exact Or.inr (not_lt.mpr h)
      · exact Or.inl (not_lt.mpr h)⟩
  haveI : IsTrans Nat (fun i j => ¬ (vec.getD j 0 > vec.getD i 0)) :=
    ⟨fun i j k hij hjk => not_lt.mpr ((not_lt.mp hjk).trans (not_lt.mp hij))⟩
  have hs := List.sorted_insertionSort (fun i j => ¬ (vec.getD j 0 > vec.getD i 0))
    (List.range vec.length)
  exact List.Pairwise.imp (fun h => not_lt.mp h) hs

theorem pair_sublist_range {i j : Nat} (hij : i < j) :
    ∀ n, j < n → List.Sublist [i, j] (List.range n)
  | 0, h => absurd h (Nat.not_lt_zero _)
  | n + 1, h => by
    rw [List.range_succ]
    rcases Nat.lt_or_ge j n with hlt | hge
    · exact (pair_sublist_range hij n hlt).trans (List.sublist_append_left _ _)
    · have hj : j = n := by omega
      subst hj
      have h1 : List.Sublist [i] (List.range j) := List.singleton_sublist.mpr (List.mem_range.mpr hij)
      exact List.Sublist.append h1 (List.Sublist.refl [j])

theorem sort_permutation_stable (vec : List ℝ) (i j : Nat) (hij : i < j) (hj : j < vec.length)
    (heq : vec.getD i 0 = vec.getD j 0) :
    List.Sublist [i, j] (sort_permutation vec (fun a b => a > b)) :=
  List.pair_sublist_insertionSort (not_lt.mpr (le_of_eq heq.symm)) (pair_sublist_range hij _ hj)

/-- C18. When `maxLines > 1` (and the root's child count is the length of its legal-move
list), `sort_eval_lists` reorders by one permutation, the stable descending sort of the
policy array: afterwards `indices` is a permutation of `0..n-1`, `policyProbSmall` is
non-increasing, `policyProbSmall[r]` and `legalMoves[r]` are the pre-sort policy and legal
move at slot `indices[r]`, and two slots `i < j` of equal policy mass keep their order in
`indices`; when `maxLines ≤ 1` the policy array and the legal-move list keep their
original order. -/
theorem sort_eval_lists_stable_descending (evalInfo : EvalInfo) (rootNode : Node)
    (hwf : rootNode.get_number_child_nodes = rootNode.get_legal_moves.length) :
    (1 < maxLines evalInfo rootNode →
      ∃ sorted indices, sorted_lists evalInfo rootNode = some (sorted, indices) ∧
        indices.Perm (List.range rootNode.get_legal_moves.length) ∧
        List.Pairwise (fun a b => b ≤ a) sorted.policyProbSmall ∧
        sorted.policyProbSmall.length = rootNode.get_legal_moves.length ∧
        sorted.legalMoves.length = rootNode.get_legal_moves.length ∧
        (∀ r slot : Nat, indices[r]? = some slot →
          sorted.policyProbSmall[r]? = (snapshot evalInfo rootNode).policyProbSmall[slot]? ∧
          sorted.legalMoves[r]? = rootNode.get_legal_moves[slot]?) ∧
        (∀ i j : Nat, i < j → j < rootNode.get_legal_moves.length →
          (snapshot evalInfo rootNode).policyProbSmall.getD i 0 =
            (snapshot evalInfo rootNode).policyProbSmall.getD j 0 →
          List.Sublist [i, j] indices)) ∧
    (maxLines evalInfo rootNode ≤ 1 →
      ∃ sorted, sorted_lists evalInfo rootNode = some (sorted, []) ∧
        sorted.policyProbSmall = (snapshot evalInfo rootNode).policyProbSmall ∧
        sorted.legalMoves = rootNode.get_legal_moves) := by
  constructor
  · intro hmax
    obtain ⟨policy, legal, hpolicy, hlegal, hs⟩ := sorted_lists_eq evalInfo rootNode hwf hmax
    have hpl := snapshot_policy_length evalInfo rootNode
    have hplen := sort_permutation_length (snapshot evalInfo rootNode).policyProbSmall
      (fun a b => a > b)
    obtain ⟨hpolicylen, hpolicyget⟩ := gather_getElem _ _ _ hpolicy
    obtain ⟨hlegallen, hlegalget⟩ := gather_getElem _ _ _ hlegal
    refine ⟨_, _, hs, ?_, ?_, ?_, ?_, ?_, ?_⟩
    · have := sort_permutation_perm (snapshot evalInfo rootNode).policyProbSmall
        (fun a b => a > b)
      rwa [hpl, hwf] at this
    · simp only []
      rw [gather_eq_map _ 0 _ _ hpolicy, List.pairwise_map]
      exact sort_permutation_descending _
    · simp only []
      rw [hpolicylen, hplen, hpl, hwf]
    · simp only []
      rw [hlegallen, hplen, hpl, hwf]
    · intro r slot hr
      exact ⟨(hpolicyget r slot hr).1, (hlegalget r slot hr).1⟩
    · intro i j hij hj heq
      exact sort_permutation_stable _ i j hij (by rw [hpl, hwf]; exact hj) heq
  · intro hmax
    refine ⟨snapshot evalInfo rootNode, ?_, rfl, rfl⟩
    unfold sorted_lists
    rw [if_neg (by omega)]

/-- Witness of C18: three legal moves, `multiPV = 3`, the first and the last slot tied. -/
theorem sort_eval_lists_stable_descending_witness :
    rootThreeTied.get_number_child_nodes = rootThreeTied.get_legal_moves.length ∧
    1 < maxLines (blankEval 3) rootThreeTied ∧
    ∃ sorted indices, sorted_lists (blankEval 3) rootThreeTied = some (sorted, indices) ∧
      indices.Perm (List.range rootThreeTied.get_legal_moves.length) ∧
      List.Pairwise (fun a b => b ≤ a) sorted.policyProbSmall ∧
      sorted.policyProbSmall.length = rootThreeTied.get_legal_moves.length ∧
      sorted.legalMoves.length = rootThreeTied.get_legal_moves.length ∧
      (∀ r slot : Nat, indices[r]? = some slot →
        sorted.policyProbSmall[r]? =
          (snapshot (blankEval 3) rootThreeTied).policyProbSmall[slot]? ∧
        sorted.legalMoves[r]? = rootThreeTied.get_legal_moves[slot]?) ∧
      (∀ i j : Nat, i < j → j < rootThreeTied.get_legal_moves.length →
        (snapshot (blankEval 3) rootThreeTied).policyProbSmall.getD i 0 =
          (snapshot (blankEval 3) rootThreeTied).policyProbSmall.getD j 0 →
        List.Sublist [i, j] indices) :=
  ⟨rfl, by simp [maxLines, blankEval, rootThreeTied],
    (sort_eval_lists_stable_descending (blankEval 3) rootThreeTied rfl).1
      (by simp [maxLines, blankEval, rootThreeTied])⟩

theorem sort_permutation_getElem_lt (vec : List ℝ) (compare : ℝ → ℝ → Prop)
    [DecidableRel compare] (r : Nat) (hr : r < vec.length) :
    ∃ slot, (sort_permutation vec compare)[r]? = some slot ∧ slot < vec.length := by
  have hlen := sort_permutation_length vec compare
  have hr' : r < (sort_permutation vec compare).length := by rw [hlen]; exact hr
  exact ⟨(sort_permutation vec compare)[r], List.getElem?_eq_getElem hr',
    sort_permutation_lt vec compare _ (List.getElem_mem hr')⟩

theorem set_eval_no_fault (evalInfo : EvalInfo) (rootNode : Node) (idx : Nat)
    (indices : List Nat) (hidx : idx = 0 ∨ idx < indices.length)
    (hm : idx < evalInfo.movesToMate.length) (hq : idx < evalInfo.bestMoveQ.length)
    (hc : idx < evalInfo.centipawns.length) :
    set_eval_for_single_pv evalInfo rootNode idx indices ≠ none := by
  cases hres : line_resolvable rootNode indices idx with
  | false => rw [set_eval_unresolvable evalInfo rootNode idx indices hidx hres]; simp
  | true =>
    obtain ⟨next, hnext, -⟩ :=
      set_eval_resolvable evalInfo rootNode idx indices hidx hm hq hc hres
    rw [hnext]; simp

/-- C20. If the root's legal-move list and its child count have the same length `n`, no
sequence access made while `update_eval_info` resolves its lines is out of bounds: the
sort and the loop end without a fault; a rank `idx ≥ 1` only occurs when `maxLines > 1`,
and then `indices` has length `n > idx` and `indices[idx] < n`; and at every rank
`idx < maxLines`, on score vectors of length `maxLines`, `set_eval_for_single_pv` does
not fault. -/
theorem resolve_lines_in_bounds (evalInfo : EvalInfo) (rootNode : Node)
    (hwf : rootNode.get_number_child_nodes = rootNode.get_legal_moves.length) :
    ∃ sorted indices result,
      sorted_lists evalInfo rootNode = some (sorted, indices) ∧
      update_eval_info_lines evalInfo rootNode = some result ∧
      (∀ idx : Nat, 1 ≤ idx → idx < maxLines evalInfo rootNode →
        1 < maxLines evalInfo rootNode ∧
        indices.length = rootNode.get_legal_moves.length ∧
        idx < indices.length ∧
        ∃ childIdx, indices[idx]? = some childIdx ∧
          childIdx < rootNode.get_legal_moves.length) ∧
      (∀ (idx : Nat) (state : EvalInfo), idx < maxLines evalInfo rootNode →
        state.movesToMate.length = maxLines evalInfo rootNode →
        state.bestMoveQ.length = maxLines evalInfo rootNode →
        state.centipawns.length = maxLines evalInfo rootNode →
        set_eval_for_single_pv state rootNode idx indices ≠ none) := by
  obtain ⟨sorted, indices, hs, -, -, hindlen⟩ := sorted_lists_some evalInfo rootNode hwf
  have hle : maxLines evalInfo rootNode ≤ rootNode.get_legal_moves.length := by
    simp [maxLines]
  have hind : ∀ i, 0 < i → i < maxLines evalInfo rootNode → i < indices.length := by
    intro i h0 hi
    rw [hindlen (by omega)]
    omega
  obtain ⟨result, k, hr, -⟩ :=
    resolve_lines_lengths rootNode indices (maxLines evalInfo rootNode) hind
      (maxLines evalInfo rootNode) 0
      { sorted with
        pv := []
        movesToMate := resize sorted.movesToMate (maxLines evalInfo rootNode) 0
        bestMoveQ := resize sorted.bestMoveQ (maxLines evalInfo rootNode) 0
        centipawns := resize sorted.centipawns (maxLines evalInfo rootNode) 0 }
      (by omega) rfl (length_resize _ _ _) (length_resize _ _ _) (length_resize _ _ _)
  refine ⟨sorted, indices, result, hs, ?_, ?_, ?_⟩
  · simp only [update_eval_info_lines, hs, Option.some_bind]
    exact hr
  · intro idx h1 hlt
    have hmax : 1 < maxLines evalInfo rootNode := by omega
    obtain ⟨policy, legal, -, -, hs'⟩ := sorted_lists_eq evalInfo rootNode hwf hmax
    rw [hs] at hs'
    have hind' : indices = sort_permutation (snapshot evalInfo rootNode).policyProbSmall
        (fun a b => a > b) := by
      injection hs' with h
      exact (Prod.mk.inj h).2
    have hpl := snapshot_policy_length evalInfo rootNode
    obtain ⟨slot, hslot, hslotlt⟩ := sort_permutation_getElem_lt
      (snapshot evalInfo rootNode).policyProbSmall (fun a b => a > b) idx
      (by rw [hpl, hwf]; omega)
    refine ⟨hmax, hindlen hmax, hind idx (by omega) hlt, slot, ?_, ?_⟩
    · rw [hind']; exact hslot
    · rw [hpl, hwf] at hslotlt; exact hslotlt
  · intro idx state hlt hm hq hc
    refine set_eval_no_fault state rootNode idx indices ?_ (by omega) (by omega) (by omega)
    rcases Nat.eq_zero_or_pos idx with h | h
    · exact Or.inl h
    · exact Or.inr (hind idx h hlt)

/-- Witness of C20: three legal moves, `multiPV = 3`. -/
theorem resolve_lines_in_bounds_witness :
    rootThreeTied.get_number_child_nodes = rootThreeTied.get_legal_moves.length ∧
    ∃ sorted indices result,
      sorted_lists (blankEval 3) rootThreeTied = some (sorted, indices) ∧
      update_eval_info_lines (blankEval 3) rootThreeTied = some result ∧
      (∀ idx : Nat, 1 ≤ idx → idx < maxLines (blankEval 3) rootThreeTied →
        1 < maxLines (blankEval 3) rootThreeTied ∧
        indices.length = rootThreeTied.get_legal_moves.length ∧
        idx < indices.length ∧
        ∃ childIdx, indices[idx]? = some childIdx ∧
          childIdx < rootThreeTied.get_legal_moves.length) ∧
      (∀ (idx : Nat) (state : EvalInfo), idx < maxLines (blankEval 3) rootThreeTied →
        state.movesToMate.length = maxLines (blankEval 3) rootThreeTied →
        state.bestMoveQ.length = maxLines (blankEval 3) rootThreeTied →
        state.centipawns.length = maxLines (blankEval 3) rootThreeTied →
        set_eval_for_single_pv state rootThreeTied idx indices ≠ none) :=
  ⟨rfl, resolve_lines_in_bounds (blankEval 3) rootThreeTied rfl⟩

theorem set_eval_eq_resolved_state (evalInfo : EvalInfo) (rootNode : Node) (idx : Nat)
    (indices : List Nat) (nextNode : ChildNode)
    (hidx : idx = 0 ∨ idx < indices.length)
    (hm : idx < evalInfo.movesToMate.length) (hq : idx < evalInfo.bestMoveQ.length)
    (hc : idx < evalInfo.centipawns.length)
    (hchild : rootNode.get_child_node (selected_child_index rootNode indices idx) =
      some nextNode)
    (hplay : nextNode.is_playout_node = true) :
    set_eval_for_single_pv evalInfo rootNode idx indices =
      some (resolved_state evalInfo rootNode idx indices nextNode, true) := by
  unfold set_eval_for_single_pv resolved_state mate_score
  rw [child_index_eq rootNode indices idx hidx]
  by_cases hl : nextNode.get_node_type = NodeType.SOLVED_LOSS
  · simp [hchild, hplay, hl, ChildNode.get_principal_variation, writeAt_some _ _ _ hm]
  · by_cases hw : nextNode.get_node_type = NodeType.SOLVED_WIN
    · simp [hchild, hplay, hw, ChildNode.get_principal_variation, writeAt_some _ _ _ hm]
    · simp [hchild, hplay, hl, hw, ChildNode.get_principal_variation, writeAt_some _ _ _ hm,
        writeAt_some _ _ _ hq, writeAt_some _ _ _ hc, hq]

theorem set_eval_some_index (evalInfo : EvalInfo) (rootNode : Node) (idx : Nat)
    (indices : List Nat) (x : EvalInfo × Bool)
    (h : set_eval_for_single_pv evalInfo rootNode idx indices = some x) :
    idx = 0 ∨ idx < indices.length := by
  by_contra hcon
  push_neg at hcon
  unfold set_eval_for_single_pv at h
  rw [if_neg hcon.1, List.getElem?_eq_none hcon.2] at h
  simp at h

theorem evalInfo_ext (a b : EvalInfo) (hf : a.frame = b.frame) (hpv : a.pv = b.pv)
    (hm : a.movesToMate = b.movesToMate) (hq : a.bestMoveQ = b.bestMoveQ)
    (hc : a.centipawns = b.centipawns) : a = b := by
  cases a
  cases b
  simp only [EvalInfo.frame, Prod.mk.injEq] at hf
  simp only at hpv hm hq hc
  simp [hf, hpv, hm, hq, hc]

theorem resize_getElem? {α : Type} (l : List α) (n j : Nat) (d : α) (hj : j < n)
    (hjl : j < l.length) : (resize l n d)[j]? = l[j]? := by
  unfold resize
  rw [List.getElem?_append_left (by simp; omega), List.getElem?_take_of_lt hj]

theorem list_eq_of_agree {α : Type} (a b : List α) (n : Nat) (ha : a.length = n)
    (hb : b.length = n) (h : ∀ j, j < n → a[j]? = b[j]?) : a = b := by
  apply List.ext_getElem?
  intro j
  rcases Nat.lt_or_ge j n with hj | hj
  · exact h j hj
  · rw [List.getElem?_eq_none (by omega), List.getElem?_eq_none (by omega)]

theorem resize_congr {α : Type} (a b : List α) (n : Nat) (d : α) (ha : n ≤ a.length)
    (hb : n ≤ b.length) (h : ∀ j, j < n → a[j]? = b[j]?) : resize a n d = resize b n d := by
  apply list_eq_of_agree _ _ n (length_resize _ _ _) (length_resize _ _ _)
  intro j hj
  rw [resize_getElem? a n j d hj (by omega), resize_getElem? b n j d hj (by omega)]
  exact h j hj

theorem line_resolvable_true (rootNode : Node) (indices : List Nat) (idx : Nat)
    (h : line_resolvable rootNode indices idx = true) :
    ∃ nextNode, rootNode.get_child_node (selected_child_index rootNode indices idx) =
      some nextNode ∧ nextNode.is_playout_node = true := by
  unfold line_resolvable at h
  cases hc : rootNode.get_child_node (selected_child_index rootNode indices idx) with
  | none => rw [hc] at h; simp at h
  | some nextNode => rw [hc] at h; exact ⟨nextNode, rfl, h⟩

theorem resolve_lines_step (rootNode : Node) (indices : List Nat) (remaining idx : Nat)
    (e r : EvalInfo) (hm : idx < e.movesToMate.length) (hq : idx < e.bestMoveQ.length)
    (hc : idx < e.centipawns.length)
    (h : resolve_lines rootNode indices (remaining + 1) idx e = some r) :
    (idx = 0 ∨ idx < indices.length) ∧
    ((line_resolvable rootNode indices idx = false ∧ r = truncate_scores e idx) ∨
      ∃ nextNode,
        rootNode.get_child_node (selected_child_index rootNode indices idx) = some nextNode ∧
        nextNode.is_playout_node = true ∧
        resolve_lines rootNode indices remaining (idx + 1)
          (resolved_state e rootNode idx indices nextNode) = some r) := by
  unfold resolve_lines at h
  have hidx : idx = 0 ∨ idx < indices.length := by
    cases hs : set_eval_for_single_pv e rootNode idx indices with
    | none => rw [hs] at h; simp at h
    | some x => exact set_eval_some_index e rootNode idx indices x hs
  refine ⟨hidx, ?_⟩
  cases hres : line_resolvable rootNode indices idx with
  | false =>
    left
    rw [set_eval_unresolvable e rootNode idx indices hidx hres] at h
    simp only [Option.some.injEq] at h
    exact ⟨rfl, h.symm⟩
  | true =>
    right
    obtain ⟨nextNode, hchild, hplay⟩ := line_resolvable_true rootNode indices idx hres
    rw [set_eval_eq_resolved_state e rootNode idx indices nextNode hidx hm hq hc hchild hplay]
      at h
    exact ⟨nextNode, hchild, hplay, h⟩

theorem resolve_lines_unresolvable (rootNode : Node) (indices : List Nat) (remaining idx : Nat)
    (e : EvalInfo) (hidx : idx = 0 ∨ idx < indices.length)
    (hres : line_resolvable rootNode indices idx = false) :
    resolve_lines rootNode indices (remaining + 1) idx e = some (truncate_scores e idx) := by
  unfold resolve_lines
  rw [set_eval_unresolvable e rootNode idx indices hidx hres]

theorem resolve_lines_resolvable (rootNode : Node) (indices : List Nat) (remaining idx : Nat)
    (e : EvalInfo) (nextNode : ChildNode) (hidx : idx = 0 ∨ idx < indices.length)
    (hm : idx < e.movesToMate.length) (hq : idx < e.bestMoveQ.length)
    (hc : idx < e.centipawns.length)
    (hchild : rootNode.get_child_node (selected_child_index rootNode indices idx) =
      some nextNode)
    (hplay : nextNode.is_playout_node = true) :
    resolve_lines rootNode indices (remaining + 1) idx e =
      resolve_lines rootNode indices remaining (idx + 1)
        (resolved_state e rootNode idx indices nextNode) := by
  conv_lhs => unfold resolve_lines
  rw [set_eval_eq_resolved_state e rootNode idx indices nextNode hidx hm hq hc hchild hplay]

theorem resolved_state_facts (e : EvalInfo) (rootNode : Node) (idx : Nat) (indices : List Nat)
    (nextNode : ChildNode) :
    (resolved_state e rootNode idx indices nextNode).frame = e.frame ∧
    (resolved_state e rootNode idx indices nextNode).pv =
      e.pv ++ [rootNode.get_move (selected_child_index rootNode indices idx) ::
        nextNode.continuation] ∧
    (resolved_state e rootNode idx indices nextNode).movesToMate.length =
      e.movesToMate.length ∧
    (resolved_state e rootNode idx indices nextNode).bestMoveQ.length = e.bestMoveQ.length ∧
    (resolved_state e rootNode idx indices nextNode).centipawns.length = e.centipawns.length ∧
    ∀ j, j ≠ idx →
      (resolved_state e rootNode idx indices nextNode).movesToMate[j]? = e.movesToMate[j]? ∧
      (resolved_state e rootNode idx indices nextNode).bestMoveQ[j]? = e.bestMoveQ[j]? ∧
      (resolved_state e rootNode idx indices nextNode).centipawns[j]? = e.centipawns[j]? := by
  unfold resolved_state
  refine ⟨rfl, rfl, by simp, ?_, ?_, ?_⟩
  · simp only []; split <;> simp
  · simp only []; split <;> simp
  · intro j hj
    refine ⟨?_, ?_, ?_⟩
    · simp [List.getElem?_set_ne (Ne.symm hj)]
    · simp only []; split
      · rfl
      · simp [List.getElem?_set_ne (Ne.symm hj)]
    · simp only []; split
      · rfl
      · simp [List.getElem?_set_ne (Ne.symm hj)]

theorem resolved_state_at (e e' : EvalInfo) (rootNode : Node) (idx : Nat) (indices : List Nat)
    (nextNode : ChildNode) (hpv : e'.pv = e.pv)
    (hm : idx < e.movesToMate.length) (hm' : idx < e'.movesToMate.length)
    (hq : idx < e.bestMoveQ.length) (hq' : idx < e'.bestMoveQ.length)
    (hc : idx < e.centipawns.length) (hc' : idx < e'.centipawns.length)
    (hsq : e'.bestMoveQ[idx]? = (resolved_state e rootNode idx indices nextNode).bestMoveQ[idx]?)
    (hsc : e'.centipawns[idx]? =
      (resolved_state e rootNode idx indices nextNode).centipawns[idx]?) :
    (resolved_state e' rootNode idx indices nextNode).movesToMate[idx]? =
      (resolved_state e rootNode idx indices nextNode).movesToMate[idx]? ∧
    (resolved_state e' rootNode idx indices nextNode).bestMoveQ[idx]? =
      (resolved_state e rootNode idx indices nextNode).bestMoveQ[idx]? ∧
    (resolved_state e' rootNode idx indices nextNode).centipawns[idx]? =
      (resolved_state e rootNode idx indices nextNode).centipawns[idx]? := by
  unfold resolved_state at hsq hsc ⊢
  simp only [] at hsq hsc ⊢
  refine ⟨?_, ?_, ?_⟩
  · rw [List.getElem?_set_self hm', List.getElem?_set_self hm, hpv]
  · split
    · rename_i hsolved
      rw [if_pos hsolved] at hsq
      exact hsq
    · rw [List.getElem?_set_self hq', List.getElem?_set_self hq]
  · split
    · rename_i hsolved
      rw [if_pos hsolved] at hsc
      exact hsc
    · rw [List.getElem?_set_self hc', List.getElem?_set_self hc]

theorem truncate_scores_facts (e : EvalInfo) (idx : Nat) :
    (truncate_scores e idx).frame = e.frame ∧ (truncate_scores e idx).pv = e.pv ∧
    (truncate_scores e idx).movesToMate = resize e.movesToMate idx 0 ∧
    (truncate_scores e idx).bestMoveQ = resize e.bestMoveQ idx 0 ∧
    (truncate_scores e idx).centipawns = resize e.centipawns idx 0 :=
  ⟨rfl, rfl, rfl, rfl, rfl⟩

/-- The loop keeps the entries of the ranks before `idx` and the members it never writes;
its score vectors end with a length between `idx` and `M`. -/
theorem resolve_lines_preserves (rootNode : Node) (indices : List Nat) (M : Nat) :
    ∀ (remaining idx : Nat) (e r : EvalInfo), idx + remaining = M →
      e.movesToMate.length = M → e.bestMoveQ.length = M → e.centipawns.length = M →
      resolve_lines rootNode indices remaining idx e = some r →
      r.frame = e.frame ∧
      (idx ≤ r.movesToMate.length ∧ r.movesToMate.length ≤ M ∧
        ∀ j, j < idx → r.movesToMate[j]? = e.movesToMate[j]?) ∧
      (idx ≤ r.bestMoveQ.length ∧ r.bestMoveQ.length ≤ M ∧
        ∀ j, j < idx → r.bestMoveQ[j]? = e.bestMoveQ[j]?) ∧
      (idx ≤ r.centipawns.length ∧ r.centipawns.length ≤ M ∧
        ∀ j, j < idx → r.centipawns[j]? = e.centipawns[j]?) := by
  intro remaining
  induction remaining with
  | zero =>
    intro idx e r hsum hm hq hc h
    simp only [resolve_lines, Option.some.injEq] at h
    subst h
    have : idx = M := by omega
    exact ⟨rfl, ⟨by omega, by omega, fun _ _ => rfl⟩, ⟨by omega, by omega, fun _ _ => rfl⟩,
      ⟨by omega, by omega, fun _ _ => rfl⟩⟩
  | succ rem ih =>
    intro idx e r hsum hm hq hc h
    obtain ⟨-, hcase⟩ := resolve_lines_step rootNode indices rem idx e r (by omega) (by omega)
      (by omega) h
    rcases hcase with ⟨-, hr⟩ | ⟨nextNode, -, -, hrec⟩
    · subst hr
      obtain ⟨hf, -, h1, h2, h3⟩ := truncate_scores_facts e idx
      rw [h1, h2, h3]
      refine ⟨hf, ⟨?_, ?_, ?_⟩, ⟨?_, ?_, ?_⟩, ⟨?_, ?_, ?_⟩⟩
      · rw [length_resize]
      · rw [length_resize]; omega
      · intro j hj; exact resize_getElem? _ _ _ _ hj (by omega)
      · rw [length_resize]
      · rw [length_resize]; omega
      · intro j hj; exact resize_getElem? _ _ _ _ hj (by omega)
      · rw [length_resize]
      · rw [length_resize]; omega
      · intro j hj; exact resize_getElem? _ _ _ _ hj (by omega)
    · obtain ⟨hf, -, hlm, hlq, hlc, hother⟩ :=
        resolved_state_facts e rootNode idx indices nextNode
      obtain ⟨hf', ⟨a1, a2, a3⟩, ⟨b1, b2, b3⟩, ⟨c1, c2, c3⟩⟩ :=
        ih (idx + 1) (resolved_state e rootNode idx indices nextNode) r (by omega)
          (by omega) (by omega) (by omega) hrec
      refine ⟨hf'.trans hf, ⟨by omega, a2, ?_⟩, ⟨by omega, b2, ?_⟩, ⟨by omega, c2, ?_⟩⟩
      · intro j hj
        rw [a3 j (by omega), (hother j (by omega)).1]
      · intro j hj
        rw [b3 j (by omega), (hother j (by omega)).2.1]
      · intro j hj
        rw [c3 j (by omega), (hother j (by omega)).2.2]

/-- A second run of the loop, started on score vectors that already hold the results of
the first run at the ranks still to come, ends with the same lines and scores. -/
theorem resolve_lines_rerun (rootNode : Node) (indices : List Nat) (M : Nat) :
    ∀ (remaining idx : Nat) (e e' r : EvalInfo), idx + remaining = M →
      e.movesToMate.length = M → e.bestMoveQ.length = M → e.centipawns.length = M →
      e'.movesToMate.length = M → e'.bestMoveQ.length = M → e'.centipawns.length = M →
      e'.pv = e.pv →
      resolve_lines rootNode indices remaining idx e = some r →
      (∀ j, j < idx → e'.movesToMate[j]? = e.movesToMate[j]?) →
      (∀ j, j < idx → e'.bestMoveQ[j]? = e.bestMoveQ[j]?) →
      (∀ j, j < idx → e'.centipawns[j]? = e.centipawns[j]?) →
      (∀ j, idx ≤ j → j < r.movesToMate.length → e'.movesToMate[j]? = r.movesToMate[j]?) →
      (∀ j, idx ≤ j → j < r.bestMoveQ.length → e'.bestMoveQ[j]? = r.bestMoveQ[j]?) →
      (∀ j, idx ≤ j → j < r.centipawns.length → e'.centipawns[j]? = r.centipawns[j]?) →
      ∃ r', resolve_lines rootNode indices remaining idx e' = some r' ∧
        r'.frame = e'.frame ∧ r'.pv = r.pv ∧ r'.movesToMate = r.movesToMate ∧
        r'.bestMoveQ = r.bestMoveQ ∧ r'.centipawns = r.centipawns := by
  intro remaining
  induction remaining with
  | zero =>
    intro idx e e' r hsum hm hq hc hm' hq' hc' hpv h lm lq lc _ _ _
    simp only [resolve_lines, Option.some.injEq] at h
    subst h
    have hidx : idx = M := by omega
    subst hidx
    exact ⟨e', rfl, rfl, hpv, list_eq_of_agree _ _ _ hm' hm lm,
      list_eq_of_agree _ _ _ hq' hq lq, list_eq_of_agree _ _ _ hc' hc lc⟩
  | succ rem ih =>
    intro idx e e' r hsum hm hq hc hm' hq' hc' hpv h lm lq lc um uq uc
    obtain ⟨hidx, hcase⟩ := resolve_lines_step rootNode indices rem idx e r (by omega)
      (by omega) (by omega) h
    rcases hcase with ⟨hres, hr⟩ | ⟨nextNode, hchild, hplay, hrec⟩
    · subst hr
      refine ⟨truncate_scores e' idx,
        resolve_lines_unresolvable rootNode indices rem idx e' hidx hres, rfl, hpv, ?_, ?_, ?_⟩
      · exact resize_congr _ _ _ _ (by omega) (by omega) lm
      · exact resize_congr _ _ _ _ (by omega) (by omega) lq
      · exact resize_congr _ _ _ _ (by omega) (by omega) lc
    · have hsum' : idx + 1 + rem = M := by omega
      have hi : idx < idx + 1 := Nat.lt_succ_self idx
      have im : idx < e.movesToMate.length := by omega
      have iq : idx < e.bestMoveQ.length := by omega
      have ic : idx < e.centipawns.length := by omega
      have im' : idx < e'.movesToMate.length := by omega
      have iq' : idx < e'.bestMoveQ.length := by omega
      have ic' : idx < e'.centipawns.length := by omega
      have key : ∀ j, j < idx + 1 → j < idx ∨ j = idx := fun j hj => by omega
      have hstep := resolve_lines_resolvable rootNode indices rem idx e' nextNode hidx im' iq'
        ic' hchild hplay
      have F := resolved_state_facts e rootNode idx indices nextNode
      have F' := resolved_state_facts e' rootNode idx indices nextNode
      have AT := resolved_state_at e e' rootNode idx indices nextNode hpv im im' iq iq' ic ic'
      generalize resolved_state e rootNode idx indices nextNode = n at F AT hrec
      generalize resolved_state e' rootNode idx indices nextNode = n' at F' AT hstep
      obtain ⟨-, hpvn, hlm, hlq, hlc, hother⟩ := F
      obtain ⟨hf', hpvn', hlm', hlq', hlc', hother'⟩ := F'
      have nm : n.movesToMate.length = M := hlm.trans hm
      have nq : n.bestMoveQ.length = M := hlq.trans hq
      have nc : n.centipawns.length = M := hlc.trans hc
      have nm' : n'.movesToMate.length = M := hlm'.trans hm'
      have nq' : n'.bestMoveQ.length = M := hlq'.trans hq'
      have nc' : n'.centipawns.length = M := hlc'.trans hc'
      have hpvnn : n'.pv = n.pv := by rw [hpvn, hpvn', hpv]
      obtain ⟨-, -, ⟨b1, -, b3⟩, ⟨c1, -, c3⟩⟩ :=
        resolve_lines_preserves rootNode indices M rem (idx + 1) n r hsum' nm nq nc hrec
      obtain ⟨hatm, hatq, hatc⟩ := AT
        ((uq idx (le_refl _) (Nat.lt_of_succ_le b1)).trans (b3 idx hi))
        ((uc idx (le_refl _) (Nat.lt_of_succ_le c1)).trans (c3 idx hi))
      have H1 : ∀ j, j < idx + 1 → n'.movesToMate[j]? = n.movesToMate[j]? := by
        intro j hj
        rcases key j hj with hlt | heq
        · rw [(hother' j (Nat.ne_of_lt hlt)).1, (hother j (Nat.ne_of_lt hlt)).1]
          exact lm j hlt
        · subst heq; exact hatm
      have H2 : ∀ j, j < idx + 1 → n'.bestMoveQ[j]? = n.bestMoveQ[j]? := by
        intro j hj
        rcases key j hj with hlt | heq
        · rw [(hother' j (Nat.ne_of_lt hlt)).2.1, (hother j (Nat.ne_of_lt hlt)).2.1]
          exact lq j hlt
        · subst heq; exact hatq
      have H3 : ∀ j, j < idx + 1 → n'.centipawns[j]? = n.centipawns[j]? := by
        intro j hj
        rcases key j hj with hlt | heq
        · rw [(hother' j (Nat.ne_of_lt hlt)).2.2, (hother j (Nat.ne_of_lt hlt)).2.2]
          exact lc j hlt
        · subst heq; exact hatc
      have H4 : ∀ j, idx + 1 ≤ j → j < r.movesToMate.length →
          n'.movesToMate[j]? = r.movesToMate[j]? := by
        intro j hj hjr
        rw [(hother' j (Nat.ne_of_gt (Nat.lt_of_succ_le hj))).1]
        exact um j (Nat.le_of_succ_le hj) hjr
      have H5 : ∀ j, idx + 1 ≤ j → j < r.bestMoveQ.length →
          n'.bestMoveQ[j]? = r.bestMoveQ[j]? := by
        intro j hj hjr
        rw [(hother' j (Nat.ne_of_gt (Nat.lt_of_succ_le hj))).2.1]
        exact uq j (Nat.le_of_succ_le hj) hjr
      have H6 : ∀ j, idx + 1 ≤ j → j < r.centipawns.length →
          n'.centipawns[j]? = r.centipawns[j]? := by
        intro j hj hjr
        rw [(hother' j (Nat.ne_of_gt (Nat.lt_of_succ_le hj))).2.2]
        exact uc j (Nat.le_of_succ_le hj) hjr
      obtain ⟨r', hr', hfr, hpvr, hmr, hqr, hcr⟩ :=
        ih (idx + 1) n n' r hsum' nm nq nc nm' nq' nc' hpvnn hrec H1 H2 H3 H4 H5 H6
      exact ⟨r', hstep.trans hr', hfr.trans hf', hpvr, hmr, hqr, hcr⟩

theorem sorted_lists_transfer (e e2 : EvalInfo) (rootNode : Node) (sorted : EvalInfo)
    (indices : List Nat) (hmulti : e2.multiPV = e.multiPV)
    (h : sorted_lists e rootNode = some (sorted, indices)) :
    sorted_lists e2 rootNode =
      some ({ e2 with
        childNumberVisits := sorted.childNumberVisits
        policyProbSmall := sorted.policyProbSmall
        legalMoves := sorted.legalMoves }, indices) ∧
    sorted = { e with
      childNumberVisits := sorted.childNumberVisits
      policyProbSmall := sorted.policyProbSmall
      legalMoves := sorted.legalMoves } := by
  have hmax : maxLines e2 rootNode = maxLines e rootNode := by simp [maxLines, hmulti]
  unfold sorted_lists at h ⊢
  rw [hmax]
  by_cases hgt : maxLines e rootNode > 1
  · rw [if_pos hgt] at h ⊢
    unfold sort_eval_lists at h ⊢
    have hp : (snapshot e2 rootNode).policyProbSmall = (snapshot e rootNode).policyProbSmall :=
      rfl
    have hl : (snapshot e2 rootNode).legalMoves = (snapshot e rootNode).legalMoves := rfl
    simp only [hp, hl] at h ⊢
    cases h1 : apply_permutation_in_place (snapshot e rootNode).policyProbSmall
        (sort_permutation (snapshot e rootNode).policyProbSmall fun a b => a > b) with
    | none => rw [h1] at h; simp at h
    | some policy =>
      cases h2 : apply_permutation_in_place (snapshot e rootNode).legalMoves
          (sort_permutation (snapshot e rootNode).policyProbSmall fun a b => a > b) with
      | none => rw [h1, h2] at h; simp at h
      | some legal =>
        cases h3 : apply_permutation_in_place
            ([] ++ List.range (snapshot e rootNode).legalMoves.length)
            (sort_permutation (snapshot e rootNode).policyProbSmall fun a b => a > b) with
        | none => rw [h1, h2, h3] at h; simp at h
        | some ind =>
          rw [h1, h2, h3] at h
          simp only [Option.some_bind, Option.map_some', Option.some.injEq,
            Prod.mk.injEq] at h ⊢
          obtain ⟨hs, hi⟩ := h
          subst hs
          exact ⟨⟨rfl, hi⟩, rfl⟩
  · rw [if_neg hgt] at h ⊢
    simp only [Option.some.injEq, Prod.mk.injEq] at h ⊢
    obtain ⟨hs, hi⟩ := h
    subst hs
    exact ⟨⟨rfl, hi⟩, rfl⟩

/-- C17. If a call of `update_eval_info` returns `result`, a second call on `result` with
the same tree, `tbHits`, `selDepth` and `multiPV` returns `result` again: every member,
in particular `pv` and `movesToMate` of every line, is the same. -/
theorem update_eval_info_idempotent (evalInfo : EvalInfo) (rootNode : Node)
    (tbHits selDepth : Nat) (result : EvalInfo)
    (h : update_eval_info evalInfo rootNode tbHits selDepth = some result) :
    update_eval_info result rootNode tbHits selDepth = some result := by
  unfold update_eval_info at h
  cases h1 : update_eval_info_lines evalInfo rootNode with
  | none => rw [h1] at h; simp at h
  | some r1 =>
    rw [h1] at h
    simp only [Option.some_bind] at h
    cases hp : r1.pv[0]? with
    | none => rw [hp] at h; simp at h
    | some pv0 =>
      rw [hp] at h
      simp only [Option.map_some', Option.some.injEq] at h
      subst h
      unfold update_eval_info_lines at h1
      cases hs : sorted_lists evalInfo rootNode with
      | none => rw [hs] at h1; simp at h1
      | some si =>
        obtain ⟨sorted, indices⟩ := si
        rw [hs] at h1
        simp only [Option.some_bind] at h1
        obtain ⟨hf1, ⟨-, m2, -⟩, ⟨-, q2, -⟩, ⟨-, c2, -⟩⟩ :=
          resolve_lines_preserves rootNode indices (maxLines evalInfo rootNode)
            (maxLines evalInfo rootNode) 0 _ r1 (Nat.zero_add _) (length_resize _ _ _)
            (length_resize _ _ _) (length_resize _ _ _) h1
        simp only [EvalInfo.frame, Prod.mk.injEq] at hf1
        obtain ⟨a1, a2, a3, a4, a5, -, -, -, a9, a10, a11, -⟩ := hf1
        have hmulti : ({ r1 with
            depth := pv0.length, selDepth := selDepth, nodes := rootNode.get_node_count,
            tbHits := tbHits } : EvalInfo).multiPV = evalInfo.multiPV := by
          obtain ⟨-, hsorted⟩ := sorted_lists_transfer evalInfo evalInfo rootNode sorted indices
            rfl hs
          simp only []
          rw [a11, hsorted]
        obtain ⟨hs2, -⟩ := sorted_lists_transfer evalInfo _ rootNode sorted indices hmulti hs
        have hmax : maxLines ({ r1 with
            depth := pv0.length, selDepth := selDepth, nodes := rootNode.get_node_count,
            tbHits := tbHits } : EvalInfo) rootNode = maxLines evalInfo rootNode := by
          unfold maxLines
          rw [hmulti]
        obtain ⟨r2, hr2, hf2, hpv2, hm2, hq2, hc2⟩ :=
          resolve_lines_rerun rootNode indices (maxLines evalInfo rootNode)
            (maxLines evalInfo rootNode) 0
            { sorted with
              pv := []
              movesToMate := resize sorted.movesToMate (maxLines evalInfo rootNode) 0
              bestMoveQ := resize sorted.bestMoveQ (maxLines evalInfo rootNode) 0
              centipawns := resize sorted.centipawns (maxLines evalInfo rootNode) 0 }
            { start := r1.start, stop := r1.stop,
              bestMoveQ := resize r1.bestMoveQ (maxLines evalInfo rootNode) 0,
              legalMoves := sorted.legalMoves, policyProbSmall := sorted.policyProbSmall,
              childNumberVisits := sorted.childNumberVisits,
              centipawns := resize r1.centipawns (maxLines evalInfo rootNode) 0,
              depth := pv0.length, selDepth := selDepth,
              movesToMate := resize r1.movesToMate (maxLines evalInfo rootNode) 0,
              nodes := rootNode.get_node_count, nodesPreSearch := r1.nodesPreSearch,
              isChess960 := r1.isChess960, pv := [], multiPV := r1.multiPV, tbHits := tbHits }
            r1 (Nat.zero_add _) (length_resize _ _ _) (length_resize _ _ _)
            (length_resize _ _ _) (length_resize _ _ _) (length_resize _ _ _)
            (length_resize _ _ _) rfl h1
            (fun j hj => absurd hj (Nat.not_lt_zero _))
            (fun j hj => absurd hj (Nat.not_lt_zero _))
            (fun j hj => absurd hj (Nat.not_lt_zero _))
            (fun j _ hj => resize_getElem? _ _ _ _ (Nat.lt_of_lt_of_le hj m2) hj)
            (fun j _ hj => resize_getElem? _ _ _ _ (Nat.lt_of_lt_of_le hj q2) hj)
            (fun j _ hj => resize_getElem? _ _ _ _ (Nat.lt_of_lt_of_le hj c2) hj)
        simp only [EvalInfo.frame, Prod.mk.injEq] at hf2
        obtain ⟨b1, b2, b3, b4, b5, -, -, -, b9, b10, b11, -⟩ := hf2
        unfold update_eval_info update_eval_info_lines
        rw [hs2, hmax]
        simp only [Option.some_bind]
        rw [hr2]
        simp only [Option.some_bind, hpv2, hp, Option.map_some', Option.some.injEq]
        apply evalInfo_ext
        · simp only [EvalInfo.frame, Prod.mk.injEq]
          exact ⟨b1, b2, b3.trans a3.symm, b4.trans a4.symm, b5.trans a5.symm, trivial, trivial,
            trivial, b9, b10, b11, trivial⟩
        · rfl
        · exact hm2
        · exact hq2
        · exact hc2

theorem update_one_win_seven :
    update_eval_info (blankEval 1) (rootOneWin [20, 21, 22, 23, 24, 25]) 0 0 =
      some evalOneWinSeven := by
  simp [update_eval_info, update_eval_info_lines, sorted_lists, maxLines, snapshot,
    resolve_lines, rootOneWin, blankEval, resize, set_eval_for_single_pv, writeAt, sizeToInt,
    toSizeT, negSizeT, SIZE_BITS, INT_BITS, ChildNode.get_principal_variation, List.replicate,
    evalOneWinSeven]

/-- Witness of C17: a proven-win child whose line has seven moves. -/
theorem update_eval_info_idempotent_witness :
    update_eval_info (blankEval 1) (rootOneWin [20, 21, 22, 23, 24, 25]) 0 0 =
      some evalOneWinSeven ∧
    update_eval_info evalOneWinSeven (rootOneWin [20, 21, 22, 23, 24, 25]) 0 0 =
      some evalOneWinSeven :=
  ⟨update_one_win_seven,
    update_eval_info_idempotent (blankEval 1) (rootOneWin [20, 21, 22, 23, 24, 25]) 0 0
      evalOneWinSeven update_one_win_seven⟩

theorem foldl_moves (UCI_move : Move → Bool → String) (isChess960 : Bool) :
    ∀ (line : List Move) (os : String),
      line.foldl (fun os move => os ++ " " ++ UCI_move move isChess960) os =
        os ++ moves_text UCI_move isChess960 line
  | [], os => by simp [moves_text]
  | move :: rest, os => by
    rw [List.foldl_cons, foldl_moves UCI_move isChess960 rest, moves_text]
    simp only [String.append_assoc]

theorem print_single_pv_eq (UCI_move : Move → Bool → String) (os : String)
    (evalInfo : EvalInfo) (idx : Nat) (hm : idx < evalInfo.movesToMate.length)
    (hc : idx < evalInfo.centipawns.length) (hp : idx < evalInfo.pv.length)
    (h64 : idx + 1 < 2 ^ 64) :
    print_single_pv UCI_move os evalInfo idx evalInfo.calculate_elapsed_time_ms =
      some (os ++ info_line UCI_move evalInfo idx) := by
  have hsz : toSizeT (idx + 1) = idx + 1 := Nat.mod_eq_of_lt (by simpa [SIZE_BITS] using h64)
  have g1 : evalInfo.movesToMate.getD idx 0 = evalInfo.movesToMate[idx] := by
    simp [List.getD, List.getElem?_eq_getElem hm]
  have g2 : evalInfo.centipawns.getD idx 0 = evalInfo.centipawns[idx] := by
    simp [List.getD, List.getElem?_eq_getElem hc]
  have g3 : evalInfo.pv.getD idx [] = evalInfo.pv[idx] := by
    simp [List.getD, List.getElem?_eq_getElem hp]
  have e1 : ∀ x : String, " " ++ ("cp " ++ x) = " cp " ++ x := fun x => by
    rw [← String.append_assoc]; rfl
  have e2 : ∀ x : String, " " ++ ("mate " ++ x) = " mate " ++ x := fun x => by
    rw [← String.append_assoc]; rfl
  have e3 : ∀ x : String, " " ++ ("depth " ++ x) = " depth " ++ x := fun x => by
    rw [← String.append_assoc]; rfl
  unfold print_single_pv info_line score_field shared_fields
  rw [hsz, g1, g2, g3, List.getElem?_eq_getElem hm, List.getElem?_eq_getElem hp,
    List.getElem?_eq_getElem hc]
  simp only [Option.some_bind, Option.map_some', foldl_moves]
  rcases Nat.eq_zero_or_pos idx with h0 | h0
  · subst h0
    by_cases hz : evalInfo.movesToMate[0] = 0
    · simp [hz, String.append_assoc, e1, e3]
    · simp [hz, String.append_assoc, e2, e3]
  · have hne : idx ≠ 0 := Nat.pos_iff_ne_zero.mp h0
    by_cases hz : evalInfo.movesToMate[idx] = 0
    · simp [hz, h0, hne, String.append_assoc, e1, e3]
    · simp [hz, h0, hne, String.append_assoc, e2, e3]

theorem print_lines_eq (UCI_move : Move → Bool → String) (evalInfo : EvalInfo) (n : Nat)
    (hm : evalInfo.movesToMate.length = n) (hc : evalInfo.centipawns.length = n)
    (hp : evalInfo.pv.length = n) (h64 : n < 2 ^ 64) :
    ∀ (remaining idx : Nat) (os : String), idx + remaining = n →
      print_lines UCI_move evalInfo evalInfo.calculate_elapsed_time_ms remaining idx os =
        some (os ++ concat_lines
          ((List.range' idx remaining).map (info_line UCI_move evalInfo))) := by
  intro remaining
  induction remaining with
  | zero => intro idx os _; simp [print_lines, concat_lines]
  | succ rem ih =>
    intro idx os hsum
    rw [print_lines, print_single_pv_eq UCI_move os evalInfo idx (by omega) (by omega)
      (by omega) (by omega), Option.some_bind, ih (idx + 1) _ (by omega)]
    simp [List.range'_succ, concat_lines, String.append_assoc]

/-- C12. For an `EvalInfo` whose `pv`, `movesToMate` and `centipawns` have the same length
`n`, `operator<<` writes exactly `n` newline-terminated lines in index order; line `idx` is
`multipv <idx+1> <cp C | mate M> depth D seldepth S nodes N time T nps P tbhits H pv
<moves...>`, behind `info score ` iff `idx > 0`; the score field is `cp centipawns[idx]`
iff `movesToMate[idx] = 0` and `mate movesToMate[idx]` otherwise; the fields from `depth`
to `tbhits` are the same text on every line. -/
theorem operator_out_lines (UCI_move : Move → Bool → String) (os : String)
    (evalInfo : EvalInfo) (n : Nat)
    (hp : evalInfo.pv.length = n) (hm : evalInfo.movesToMate.length = n)
    (hc : evalInfo.centipawns.length = n) (h64 : n < 2 ^ 64) :
    operator_out UCI_move os evalInfo =
      some (os ++ concat_lines ((List.range n).map (info_line UCI_move evalInfo))) ∧
    ((List.range n).map (info_line UCI_move evalInfo)).length = n ∧
    ∀ idx, idx < n →
      info_line UCI_move evalInfo idx =
        (if 0 < idx then "info score " else "") ++ "multipv " ++ toString (idx + 1) ++ " "
          ++ (if evalInfo.movesToMate[idx]? = some 0 then
                "cp " ++ toString (evalInfo.centipawns.getD idx 0)
              else "mate " ++ toString (evalInfo.movesToMate.getD idx 0))
          ++ " " ++ shared_fields evalInfo ++ " pv"
          ++ moves_text UCI_move evalInfo.isChess960 (evalInfo.pv.getD idx []) ++ "\n" := by
  refine ⟨?_, by simp, ?_⟩
  · unfold operator_out
    simp only []
    rw [hc, print_lines_eq UCI_move evalInfo n hm hc hp h64 n 0 os (Nat.zero_add n),
      List.range_eq_range']
  · intro idx hidx
    have hlt : idx < evalInfo.movesToMate.length := by omega
    have g1 : evalInfo.movesToMate.getD idx 0 = evalInfo.movesToMate[idx] := by
      simp [List.getD, List.getElem?_eq_getElem hlt]
    unfold info_line score_field
    rw [g1, List.getElem?_eq_getElem hlt]
    simp only [Option.some.injEq]

/-- Witness of C12: an `EvalInfo` with two lines. -/
theorem operator_out_lines_witness :
    evalTwoLines.pv.length = 2 ∧ evalTwoLines.movesToMate.length = 2 ∧
    evalTwoLines.centipawns.length = 2 ∧ 2 < 2 ^ 64 ∧
    (operator_out moveNumber "" evalTwoLines =
      some ("" ++ concat_lines ((List.range 2).map (info_line moveNumber evalTwoLines))) ∧
    ((List.range 2).map (info_line moveNumber evalTwoLines)).length = 2 ∧
    ∀ idx, idx < 2 →
      info_line moveNumber evalTwoLines idx =
        (if 0 < idx then "info score " else "") ++ "multipv " ++ toString (idx + 1) ++ " "
          ++ (if evalTwoLines.movesToMate[idx]? = some 0 then
                "cp " ++ toString (evalTwoLines.centipawns.getD idx 0)
              else "mate " ++ toString (evalTwoLines.movesToMate.getD idx 0))
          ++ " " ++ shared_fields evalTwoLines ++ " pv"
          ++ moves_text moveNumber evalTwoLines.isChess960 (evalTwoLines.pv.getD idx [])
          ++ "\n") :=
  ⟨rfl, rfl, rfl, by norm_num,
    operator_out_lines moveNumber "" evalTwoLines 2 rfl rfl rfl (by norm_num)⟩

/-- The throughput of `evalTwoLines`: 500 nodes in 250 ms. -/
theorem nps_two_lines : evalTwoLines.calculate_nps 250 = 2000 := by
  have hx : ((subSizeT evalTwoLines.nodes evalTwoLines.nodesPreSearch : Nat) : ℝ) /
      (((250 : Nat) : ℝ) / 1000) + 0.5 = 2000.5 := by
    have : subSizeT evalTwoLines.nodes evalTwoLines.nodesPreSearch = 500 := by
      simp [subSizeT, evalTwoLines, SIZE_BITS]
    rw [this]; norm_num
  have hfl : truncToInt (2000.5 : ℝ) = 2000 := by
    rw [truncToInt_of_nonneg (by norm_num), Int.floor_eq_iff]
    constructor <;> norm_num
  simp only [EvalInfo.calculate_nps]
  rw [if_neg (by norm_num), hx, hfl]
  simp [intToSizeT, SIZE_BITS]

/-- The second line of the report of `evalTwoLines`, as text. -/
theorem evalTwoLines_second_line : info_line moveNumber evalTwoLines 1 =
    "info score multipv 2 mate 2 depth 2 seldepth 5 nodes 900 time 250 nps 2000 tbhits 0 pv 11 21 22\n" := by
  have ht : evalTwoLines.calculate_elapsed_time_ms = 250 := by
    simp [EvalInfo.calculate_elapsed_time_ms, evalTwoLines, intToSizeT, SIZE_BITS]
  unfold info_line shared_fields score_field
  rw [ht, nps_two_lines]
  simp [evalTwoLines, moves_text, moveNumber]
  decide

end CrazyAra
